import Mathlib

/-!
Verification development for the crong cron-scheduling library
(schedule.go: field parser, Schedule, Next/Prev/Matches; ticker/job file:
ScheduledJob state machine and failure counters).

Modelling conventions:
* Go strings are embedded as `List Char`.
* Go `(value, error)` pairs are embedded as `Except String _` (an `.error`
  models a non-nil Go error); a nil slice and an empty slice are both
  modelled as `[]` (the distinction is never observable on any reachable
  path of the embedded functions).
* Times are minute-granular civil datetimes (the library truncates every
  time it touches to the minute); the time zone is treated as fixed, so
  `t.In(s.loc)` is the identity and `Truncate(time.Minute)` is the identity
  on the minute-granular representation.
* The unbounded search loops in `Schedule.nextNoTruncate` and
  `Schedule.Prev` are given an explicit fuel parameter; `none` models the
  Go loop not having returned within `fuel` iterations.
-/

/-! ## String primitives (Go strings package, specialized to one-char separators) -/

/-- The characters of a string literal, used to write `List Char` constants. -/
def chars (s : String) : List Char := s.data

/-- Go `unicode.IsSpace`, restricted to the ASCII whitespace that can occur
in cron expressions. -/
def isSpaceChar (c : Char) : Bool :=
  c = ' ' || c = '\t' || c = '\n' || c = '\r'

/-- Go `strings.TrimSpace`. -/
def trimSpace (l : List Char) : List Char :=
  ((l.dropWhile isSpaceChar).reverse.dropWhile isSpaceChar).reverse

/-- Go `strings.Split(s, sep)` for a one-character separator. -/
def splitChar (sep : Char) : List Char → List (List Char)
  | [] => [[]]
  | c :: rest =>
    if c = sep then [] :: splitChar sep rest
    else
      match splitChar sep rest with
      | [] => [[c]]
      | p :: ps => (c :: p) :: ps

/-- Go `strings.Join(l, sep)` for a one-character separator. -/
def joinChar (sep : Char) : List (List Char) → List Char
  | [] => []
  | [p] => p
  | p :: ps => p ++ sep :: joinChar sep ps

/-- Go `strings.Cut(s, sep)` for a one-character separator: `some (before, after)`
when the separator occurs (split at the first occurrence), `none` otherwise. -/
def cutChar (sep : Char) : List Char → Option (List Char × List Char)
  | [] => none
  | c :: rest =>
    if c = sep then some ([], rest)
    else (cutChar sep rest).map (fun pr => (c :: pr.1, pr.2))

/-- Go `strings.ToUpper` (cron field text is ASCII; `Char.toUpper` is the
ASCII uppercase map). -/
def asciiUpper (l : List Char) : List Char := l.map Char.toUpper

/-- Accumulate the decimal value of a digit string; `none` on any non-digit. -/
def digitsVal : List Char → Nat → Option Nat
  | [], acc => some acc
  | c :: rest, acc =>
    if c.isDigit then digitsVal rest (acc * 10 + (c.toNat - 48)) else none

/-- Go `strconv.Atoi`: optional sign followed by at least one digit
(integer overflow is not modelled; cron values are tiny). -/
def atoiQ : List Char → Option Int
  | [] => none
  | '+' :: rest => if rest = [] then none else (digitsVal rest 0).map Int.ofNat
  | '-' :: rest => if rest = [] then none else (digitsVal rest 0).map (fun n => -(n : Int))
  | l => (digitsVal l 0).map Int.ofNat

/-- The Go loop `for i := lo; i <= hi; i++ { values = append(values, i) }`. -/
def intRange (lo hi : Int) : List Int :=
  (List.range (hi + 1 - lo).toNat).map (fun i => lo + Int.ofNat i)

/-- Go `slices.Compact`: collapse runs of adjacent equal elements. -/
def compact : List Int → List Int
  | [] => []
  | [a] => [a]
  | a :: b :: rest => if a = b then compact (b :: rest) else a :: compact (b :: rest)

/-- The deferred `slices.Sort(values); values = slices.Compact(values)` that
`field.parse` runs on every successful return. -/
def sortCompact (l : List Int) : List Int :=
  compact (List.insertionSort (· ≤ ·) l)

/-! ## Cron field descriptors (schedule.go: `field`, the five `...Opts` values) -/

/-- cron expression positions. -/
def minuteInd : Nat := 0
def hourInd : Nat := 1
def dayInd : Nat := 2
def monthInd : Nat := 3
def weekdayInd : Nat := 4

/-- schedule.go `field`: a cron field descriptor. -/
structure CronField where
  Name : String
  Index : Nat
  Allowed : List Int
  Conversions : List (List Char × Int)
deriving Repr, DecidableEq

/-- Embeds `field.Min`: first allowed value (the `Allowed` lists are sorted). -/
def CronField.Min (f : CronField) : Int := f.Allowed.headD 0

/-- Embeds `field.Max`: last allowed value. -/
def CronField.Max (f : CronField) : Int := f.Allowed.getLastD 0

/-- Embeds `field.error`: a field-scoped error message. -/
def CronField.errMsg (f : CronField) (msg : String) : String :=
  "invalid " ++ f.Name ++ " entry: " ++ msg

/-- Embeds `field.wrapErr`: wrap an inner error with the field prefix. -/
def CronField.wrapMsg (f : CronField) (e : String) : String :=
  "invalid " ++ f.Name ++ " entry: " ++ e

/-- Embeds `minuteOpts` (Allowed is the literal list 0..59 in the source). -/
def minuteOpts : CronField :=
  { Name := "minute", Index := minuteInd
    Allowed := (List.range 60).map (fun n => (n : Int)), Conversions := [] }

/-- Embeds `hourOpts` (Allowed 0..23). -/
def hourOpts : CronField :=
  { Name := "hour", Index := hourInd
    Allowed := (List.range 24).map (fun n => (n : Int)), Conversions := [] }

/-- Embeds `dayOpts` (Allowed 1..31). -/
def dayOpts : CronField :=
  { Name := "day", Index := dayInd
    Allowed := (List.range 31).map (fun n => ((n : Int) + 1)), Conversions := [] }

/-- Embeds `monthOpts` (Allowed 1..12, JAN..DEC aliases). -/
def monthOpts : CronField :=
  { Name := "month", Index := monthInd
    Allowed := (List.range 12).map (fun n => ((n : Int) + 1))
    Conversions :=
      [(chars "JAN", 1), (chars "FEB", 2), (chars "MAR", 3), (chars "APR", 4),
       (chars "MAY", 5), (chars "JUN", 6), (chars "JUL", 7), (chars "AUG", 8),
       (chars "SEP", 9), (chars "OCT", 10), (chars "NOV", 11), (chars "DEC", 12)] }

/-- Embeds `weekdayOpts` (Allowed 0..6, SUN..SAT aliases, 0 = Sunday). -/
def weekdayOpts : CronField :=
  { Name := "weekday", Index := weekdayInd
    Allowed := (List.range 7).map (fun n => (n : Int))
    Conversions :=
      [(chars "SUN", 0), (chars "MON", 1), (chars "TUE", 2), (chars "WED", 3),
       (chars "THU", 4), (chars "FRI", 5), (chars "SAT", 6)] }

/-- Embeds `stepValues`: every `step`-th element (0-indexed) of `values`. -/
def stepValues (values : List Int) (step : Int) : List Int :=
  ((values.enum.filter (fun p => (p.1 : Int) % step == 0)).map Prod.snd)

/-- Alias lookup in `field.Conversions` (Go map indexing). -/
def lookupConv : List (List Char × Int) → List Char → Option Int
  | [], _ => none
  | (k, v) :: rest, s => if k = s then some v else lookupConv rest s

/-- The loop inside `field.parseList`, over the already-parsed list entries
(the recursive `f.parse(ms)` results are supplied as arguments so that
`parseF` below is structurally recursive on its fuel): concatenate entry
values in order, stopping at the first error, which is wrapped with the
field prefix. -/
def parseListCombine (f : CronField) : List (Except String (List Int)) →
    Except String (List Int)
  | [] => .ok []
  | .error e :: _ => .error (f.wrapMsg e)
  | .ok sv :: rest =>
    match parseListCombine f rest with
    | .error e => .error e
    | .ok vs => .ok (sv ++ vs)

/-- Embeds `field.parseStep`, with the recursive `f.parse(stepRange)` result
supplied as `baseRes`. -/
def parseStepWith (f : CronField) (stepRange step : List Char)
    (baseRes : Except String (List Int)) : Except String (List Int) :=
  if stepRange = [] ∨ step = [] then .error (f.errMsg "empty step entry")
  else
    match atoiQ step with
    | none => .error (f.wrapMsg "invalid step entry")
    | some stepVal =>
      if stepVal < 1 then .error (f.errMsg "step must be greater than 0")
      else
        match baseRes with
        | .error e => .error (f.wrapMsg e)
        | .ok srv =>
          -- non-standard: a single base value means "from that value
          -- through the field maximum"
          let srv := if srv.length = 1
            then srv ++ f.Allowed.filter (fun av => srv.headD 0 < av)
            else srv
          let values := stepValues srv stepVal
          if values.length = 1 then .error (f.wrapMsg "step only occurs once")
          else .ok values

/-- Embeds `field.parseRange`, with the recursive `f.parse` results for the two
sides supplied as arguments. -/
def parseRangeWith (f : CronField) (afterRange : List Char)
    (beforeRes afterRes : Except String (List Int)) : Except String (List Int) :=
  if afterRange = [] then .error (f.errMsg "empty end range")
  else
    match beforeRes with
    | .error e => .error (f.wrapMsg e)
    | .ok startMin =>
      if startMin = [] then .error (f.errMsg "empty Start range")
      else if startMin.length > 1 then .error (f.errMsg "multiple Start range values")
      else
        match afterRes with
        | .error e => .error (f.wrapMsg e)
        | .ok endMin =>
          if endMin = [] then .error (f.errMsg "empty end range")
          else if endMin.length > 1 then .error (f.errMsg "multiple end range values")
          else
            let startNum := startMin.headD 0
            let endNum := endMin.headD 0
            if startNum > endNum ∨ startNum = endNum then
              .error (f.errMsg "Start range must be less than end range")
            else .ok (intRange startNum endNum)

/-- Embeds `field.parse` from schedule.go. The explicit fuel only bounds the
recursion depth (each Go-level recursive call is on a strict substring, so
`s.length + 1` fuel always suffices; see `parse`). The deferred
sort-and-compact of the named return value is modelled by `sortCompact`
on every successful return. -/
def parseF (f : CronField) : Nat → List Char → Except String (List Int)
  | 0, _ => .error "parse recursion fuel exhausted"
  | fuel + 1, s =>
    Except.map sortCompact <|
    if s = [] then .error (f.errMsg "empty")
    else if s = ['?'] ∧ f.Index ≠ dayInd ∧ f.Index ≠ monthInd ∧ f.Index ≠ weekdayInd then
      .error (f.errMsg "wildcard ? only supported for day, month, and weekday fields")
    else if s = ['*'] ∨ s = ['?'] then
      .ok (intRange f.Min f.Max)
    else
      -- Go reassigns s = strings.ToUpper(s) here; the uppercased string is
      -- written out at each later use
      match lookupConv f.Conversions (asciiUpper s) with
      | some v => .ok [v]
      | none =>
        match atoiQ (asciiUpper s) with
        | some m =>
          if m < f.Min then .error (f.errMsg "value is less than the field minimum")
          else if m > f.Max then .error (f.errMsg "value is greater than the field maximum")
          else .ok [m]
        | none =>
          if !((asciiUpper s).contains ',' || (asciiUpper s).contains '-' ||
              (asciiUpper s).contains '/' || (asciiUpper s).contains 'L') then
            .error (f.wrapMsg "not a number and no special character")
          else if (asciiUpper s).contains ',' then
            parseListCombine f ((splitChar ',' (asciiUpper s)).map (parseF f fuel))
          else
            match cutChar '/' (asciiUpper s) with
            | some (b, a) => parseStepWith f b a (parseF f fuel b)
            | none =>
              match cutChar '-' (asciiUpper s) with
              | some (b, a) => parseRangeWith f a (parseF f fuel b) (parseF f fuel a)
              | none =>
                -- the cases above fall through for the "L" (Last) special
                -- character: Go returns the nil values slice with no error
                .ok []

/-- Embeds `field.parse` entry point: fuel `s.length + 1` is always enough because
every recursive call is on a strict substring of `s`. -/
def parse (f : CronField) (s : List Char) : Except String (List Int) :=
  parseF f (s.length + 1) s

/-! ## Schedule construction (schedule.go: `Schedule`, `validate`, `New`) -/

/-- schedule.go `Schedule`: the five raw fields plus their parsed value sets
(the unused per-field raw-string struct members `minute`, `hour`, ... are
never assigned in the source and are omitted; `loc` and `created` are not
modelled, see the fixed-time-zone convention above). -/
structure Schedule where
  values : List (List Char)
  minutes : List Int
  minutesDesc : List Int
  allowAnyMinute : Bool
  hours : List Int
  allowAnyHour : Bool
  days : List Int
  allowAnyDay : Bool
  months : List Int
  allowAnyMonth : Bool
  weekdays : List Int
  allowAnyWeekday : Bool
deriving Repr, DecidableEq

/-- Accessor `Schedule.Minute`. -/
def Schedule.Minute (s : Schedule) : List Char := s.values.getD minuteInd []

/-- Accessor `Schedule.Hour`. -/
def Schedule.Hour (s : Schedule) : List Char := s.values.getD hourInd []

/-- Accessor `Schedule.Day`. -/
def Schedule.Day (s : Schedule) : List Char := s.values.getD dayInd []

/-- Accessor `Schedule.Month`. -/
def Schedule.Month (s : Schedule) : List Char := s.values.getD monthInd []

/-- Accessor `Schedule.Weekday`. -/
def Schedule.Weekday (s : Schedule) : List Char := s.values.getD weekdayInd []

/-- Embeds `Schedule.String`: the five raw fields joined by single spaces. -/
def Schedule.string (s : Schedule) : List Char := joinChar ' ' s.values

/-- The reversal loop in `Schedule.validate` building `minutesDesc`:
`revSlice` is zero-initialized and the loop swaps ends pairwise while
`i < j`, so for odd lengths the middle slot keeps its zero. -/
def goReverseSwap (l : List Int) : List Int :=
  (List.range l.length).map (fun i =>
    if i = l.length - 1 - i then 0 else l.getD (l.length - 1 - i) 0)

/-- One arm of the five switches in `Schedule.validate`: `anyToks` are the
tokens the switch sends to the accept-any case (`*`, and `?` for
day/month/weekday); otherwise the field text is parsed, the values are
stored (nil on error, modelled as `[]`), and a non-nil error is collected. -/
def fieldVals (f : CronField) (anyToks : List (List Char)) (v : List Char) :
    List Int × Bool × Option String :=
  if v ∈ anyToks then ([], true, none)
  else
    match parse f v with
    | .ok vs => (vs, false, none)
    | .error e => ([], false, some e)

/-- Embeds `Schedule.validate`: parse all five fields, collecting every non-nil
field error (`errors.Join` drops the nils). -/
def validate (vals : List (List Char)) : Schedule × List String :=
  let mr := fieldVals minuteOpts [['*']] (vals.getD minuteInd [])
  let hr := fieldVals hourOpts [['*']] (vals.getD hourInd [])
  let dr := fieldVals dayOpts [['*'], ['?']] (vals.getD dayInd [])
  let mo := fieldVals monthOpts [['*'], ['?']] (vals.getD monthInd [])
  let wr := fieldVals weekdayOpts [['*'], ['?']] (vals.getD weekdayInd [])
  ({ values := vals
     minutes := mr.1, minutesDesc := goReverseSwap mr.1, allowAnyMinute := mr.2.1
     hours := hr.1, allowAnyHour := hr.2.1
     days := dr.1, allowAnyDay := dr.2.1
     months := mo.1, allowAnyMonth := mo.2.1
     weekdays := wr.1, allowAnyWeekday := wr.2.1 },
   [mr.2.2, hr.2.2, dr.2.2, mo.2.2, wr.2.2].reduceOption)

/-- Embeds `cronShortcut`: the macro-to-expression map. -/
def cronShortcut (cron : List Char) : List Char :=
  if cron = chars "@yearly" then chars "0 0 1 1 *"
  else if cron = chars "@annually" then chars "0 0 1 1 *"
  else if cron = chars "@monthly" then chars "0 0 1 * *"
  else if cron = chars "@weekly" then chars "0 0 * * 0"
  else if cron = chars "@daily" then chars "0 0 * * *"
  else if cron = chars "@midnight" then chars "0 0 * * *"
  else if cron = chars "@hourly" then chars "0 * * * *"
  else cron

/-- Embeds `New`: trim, resolve macros, split on spaces, require exactly 5 fields
(`none` models Go returning a nil `*Schedule` with a field-count error),
then validate. The Go `(s, err)` return with `err = errors.Join(errs...)`
is rendered as the pair `(s, errs)`: a non-empty `errs` list is exactly a
non-nil combined error. -/
def New (cron : List Char) : Option (Schedule × List String) :=
  let cron := trimSpace cron
  let cron := cronShortcut cron
  let values := splitChar ' ' cron
  if values.length ≠ 5 then none
  else some (validate values)

/-! ## Civil time (minute-granular model of Go `time.Time` in a fixed zone) -/

/-- A civil datetime at minute granularity. -/
structure DateTime where
  year : Int
  month : Nat
  day : Nat
  hour : Nat
  minute : Nat
deriving Repr, DecidableEq

/-- Gregorian leap year (Go `time` package rules). -/
def isLeap (y : Int) : Bool := y % 4 == 0 && (y % 100 != 0 || y % 400 == 0)

/-- Days in a month of the proleptic Gregorian calendar. -/
def daysInMonth (y : Int) (m : Nat) : Nat :=
  if m = 2 then (if isLeap y then 29 else 28)
  else if m = 4 ∨ m = 6 ∨ m = 9 ∨ m = 11 then 30 else 31

/-- The day number of the last day of month `m` of year `y`: models the
`time.Date(y, m+1, 1, ...).Add(-24h).Day()` computation in `Schedule.isDay`
(Go normalizes month 13 to January of the next year; the day before the
first of the next month is the last of this one). -/
def lastDayOfMonth (y : Int) (m : Nat) : Nat := daysInMonth y m

/-- Days since 1970-01-01 of a civil date (standard era-based conversion;
all divisions act on non-negative operands for the years that matter). -/
def daysFromCivil (y : Int) (m : Nat) (d : Nat) : Int :=
  let yy : Int := if m ≤ 2 then y - 1 else y
  let era : Int := (if 0 ≤ yy then yy else yy - 399) / 400
  let yoe : Int := yy - era * 400
  let mp : Int := ((m : Int) + 9) % 12
  let doy : Int := (153 * mp + 2) / 5 + (d : Int) - 1
  let doe : Int := yoe * 365 + yoe / 4 - yoe / 100 + doy
  era * 146097 + doe - 719468

/-- Go `t.Weekday()` (0 = Sunday): 1970-01-01 was a Thursday (= 4). -/
def weekdayOf (y : Int) (m d : Nat) : Int := (daysFromCivil y m d + 4) % 7

/-- Weekday of a datetime. -/
def DateTime.weekday (t : DateTime) : Int := weekdayOf t.year t.month t.day

/-- A well-formed civil datetime. -/
def DateTime.Valid (t : DateTime) : Prop :=
  1 ≤ t.month ∧ t.month ≤ 12 ∧ 1 ≤ t.day ∧ t.day ≤ daysInMonth t.year t.month ∧
    t.hour ≤ 23 ∧ t.minute ≤ 59

instance (t : DateTime) : Decidable t.Valid := by
  unfold DateTime.Valid; infer_instance

/-- Chronological (lexicographic) strict order on civil datetimes;
this is what `time.Time.Before` means for minute-granular times in one
fixed zone. -/
def DateTime.lt (a b : DateTime) : Prop :=
  a.year < b.year ∨ (a.year = b.year ∧ (a.month < b.month ∨ (a.month = b.month ∧
    (a.day < b.day ∨ (a.day = b.day ∧ (a.hour < b.hour ∨ (a.hour = b.hour ∧
      a.minute < b.minute)))))))

instance (a b : DateTime) : Decidable (a.lt b) := by
  unfold DateTime.lt; infer_instance

/-- Go `t.Add(time.Minute)` on a minute-granular civil datetime. -/
def addMinute (t : DateTime) : DateTime :=
  if t.minute ≠ 59 then { t with minute := t.minute + 1 }
  else if t.hour ≠ 23 then { t with minute := 0, hour := t.hour + 1 }
  else if t.day ≠ daysInMonth t.year t.month then
    { t with minute := 0, hour := 0, day := t.day + 1 }
  else if t.month ≠ 12 then
    { t with minute := 0, hour := 0, day := 1, month := t.month + 1 }
  else ⟨t.year + 1, 1, 1, 0, 0⟩

/-- Go `t.Add(-time.Minute)` on a minute-granular civil datetime. -/
def subMinute (t : DateTime) : DateTime :=
  if t.minute ≠ 0 then { t with minute := t.minute - 1 }
  else if t.hour ≠ 0 then { t with minute := 59, hour := t.hour - 1 }
  else if t.day ≠ 1 then { t with minute := 59, hour := 23, day := t.day - 1 }
  else if t.month ≠ 1 then
    { t with
      minute := 59
      hour := 23
      day := daysInMonth t.year (t.month - 1)
      month := t.month - 1 }
  else ⟨t.year - 1, 12, 31, 23, 59⟩

/-! ## Matching and occurrence search (schedule.go: `Matches`, `Next`, `Prev`) -/

/-- Embeds `Schedule.isMinute`. -/
def Schedule.isMinute (s : Schedule) (t : DateTime) : Bool :=
  if s.allowAnyMinute then true else s.minutes.contains (t.minute : Int)

/-- Embeds `Schedule.isHour`. -/
def Schedule.isHour (s : Schedule) (t : DateTime) : Bool :=
  if s.allowAnyHour then true else s.hours.contains (t.hour : Int)

/-- Embeds `Schedule.isDay`: day-set membership, with the "L" fallback comparing
against the last day of the month. -/
def Schedule.isDay (s : Schedule) (t : DateTime) : Bool :=
  if s.allowAnyDay then true
  else if s.days.contains (t.day : Int) then true
  else if s.Day = ['L'] then lastDayOfMonth t.year t.month == t.day
  else false

/-- Embeds `Schedule.isMonth`. -/
def Schedule.isMonth (s : Schedule) (t : DateTime) : Bool :=
  if s.allowAnyMonth then true else s.months.contains (t.month : Int)

/-- Embeds `Schedule.isWeekday`. -/
def Schedule.isWeekday (s : Schedule) (t : DateTime) : Bool :=
  if s.allowAnyWeekday then true else s.weekdays.contains t.weekday

/-- Embeds `Schedule.Matches` (same short-circuit order as the source). -/
def Schedule.Matches (s : Schedule) (t : DateTime) : Bool :=
  s.isWeekday t && s.isMonth t && s.isDay t && s.isHour t && s.isMinute t

/-- The minute-stepping loop of `Schedule.nextNoTruncate` with fuel. -/
def nextFuel (s : Schedule) : Nat → DateTime → Option DateTime
  | 0, _ => none
  | fuel + 1, t =>
    let t' := addMinute t
    if s.Matches t' then some t' else nextFuel s fuel t'

/-- Embeds `Schedule.nextNoTruncate`: the two fast-path cases of the switch on
`s.String()` — the resolved yearly expression, and the (unresolved) monthly
macro name — then the minute-stepping loop. -/
def nextNoTruncate (s : Schedule) (fuel : Nat) (t : DateTime) : Option DateTime :=
  if s.string = chars "0 0 1 1 *" then
    some ⟨t.year + 1, 1, 1, 0, 0⟩
  else if s.string = chars "@monthly" then
    some (if t.month = 12 then ⟨t.year + 1, 1, 1, 0, 0⟩
          else ⟨t.year, t.month + 1, 1, 0, 0⟩)
  else nextFuel s fuel t

/-- Embeds `Schedule.Next` (truncation to the minute is the identity in this
minute-granular model). -/
def Next (s : Schedule) (fuel : Nat) (t : DateTime) : Option DateTime :=
  nextNoTruncate s fuel t

/-- The minute-stepping loop of `Schedule.Prev` with fuel. -/
def prevFuel (s : Schedule) : Nat → DateTime → Option DateTime
  | 0, _ => none
  | fuel + 1, t =>
    let t' := subMinute t
    if s.Matches t' then some t' else prevFuel s fuel t'

/-- Embeds `Schedule.Prev`. -/
def Prev (s : Schedule) (fuel : Nat) (t : DateTime) : Option DateTime :=
  prevFuel s fuel t

/-! ## ScheduledJob state machine and failure counters (job file) -/

/-- Embeds `ScheduleState` constants (`iota + 1`; the zero value of the atomic
state field, before any `Start`, is none of the three). -/
def ScheduleStarted : Int := 1
def ScheduleSuspended : Int := 2
def ScheduleStopped : Int := 3

/-- The state-machine-relevant fields of `ScheduledJob`: the atomic `state`
word and the `previouslyStarted` one-shot guard. -/
structure JobState where
  state : Int
  previouslyStarted : Bool
deriving Repr, DecidableEq

/-- Embeds `ScheduledJob.Suspend`: `state.CompareAndSwap(Started, Suspended)`. -/
def JobState.Suspend (j : JobState) : JobState × Bool :=
  if j.state = ScheduleStarted then ({ j with state := ScheduleSuspended }, true)
  else (j, false)

/-- Embeds `ScheduledJob.Resume`: `state.CompareAndSwap(Suspended, Started)`. -/
def JobState.Resume (j : JobState) : JobState × Bool :=
  if j.state = ScheduleSuspended then ({ j with state := ScheduleStarted }, true)
  else (j, false)

/-- Embeds `ScheduledJob.Stop`: `old := state.Swap(Stopped); return old != Stopped`
(the non-blocking send on the stop channel has no effect on the state
machine itself). -/
def JobState.Stop (j : JobState) : JobState × Bool :=
  ({ j with state := ScheduleStopped }, decide (j.state ≠ ScheduleStopped))

/-- Embeds `ScheduledJob.Start`: reject when stopped or previously started (with
no state change); otherwise `start` synchronously stores `Started` and sets
the one-shot guard. -/
def JobState.Start (j : JobState) : Except String JobState :=
  if j.state = ScheduleStopped then .error "cannot start a job that has been stopped"
  else if j.previouslyStarted then .error "job has already been started"
  else .ok { state := ScheduleStarted, previouslyStarted := true }

/-- The failure-threshold configuration of `ScheduledJobOptions`
(`MaxConcurrent` and the ticker timeout do not affect the counter logic). -/
structure ScheduledJobOptions where
  MaxFailures : Int
  MaxConsecutiveFailures : Int
deriving Repr, DecidableEq

/-- The counters of `ScheduledJob` touched by `execute`, plus whether a
stop request is pending on the (capacity-1) stop channel. -/
structure JobCounters where
  Runs : Int
  Failures : Int
  ConsecutiveFailures : Int
  stopRequested : Bool
deriving Repr, DecidableEq

/-- Embeds `ScheduledJob.execute` for one invocation whose callback outcome is
`callbackOk`: increment `Runs`; on success reset `ConsecutiveFailures`;
on failure increment both failure counters and, when a configured
threshold is reached, make a non-blocking stop request (a no-op if one is
already pending — the channel has capacity 1). -/
def execute (opts : ScheduledJobOptions) (c : JobCounters) (callbackOk : Bool) :
    JobCounters :=
  let c := { c with Runs := c.Runs + 1 }
  if callbackOk then { c with ConsecutiveFailures := 0 }
  else
    let failures := c.Failures + 1
    let consecutiveFailures := c.ConsecutiveFailures + 1
    let c := { c with Failures := failures, ConsecutiveFailures := consecutiveFailures }
    if 0 < opts.MaxFailures ∧ opts.MaxFailures ≤ failures then
      { c with stopRequested := true }
    else if 0 < opts.MaxConsecutiveFailures ∧
        opts.MaxConsecutiveFailures ≤ consecutiveFailures then
      { c with stopRequested := true }
    else c

/-- The stop-watcher goroutine in `ScheduledJob.start`: receiving the
pending stop request cancels the run context and (via the deferred store)
moves the state to `Stopped`. -/
def consumeStop (j : JobState) (c : JobCounters) : JobState × JobCounters :=
  if c.stopRequested then
    ({ j with state := ScheduleStopped }, { c with stopRequested := false })
  else (j, c)

/-- Embeds `n` consecutive invocations of `execute` whose callback always fails. -/
def execFailN (opts : ScheduledJobOptions) (c : JobCounters) : Nat → JobCounters
  | 0 => c
  | n + 1 => execute opts (execFailN opts c n) false

/-! ## Spec-side definitions (used only to state claims, not taken from the
source) -/

/-- Spec side, for the error-aggregation claim: the expected combined error
list, one entry per failing field, in field order. -/
def specAggregatedErrors (vals : List (List Char)) : List String :=
  ([(fieldVals minuteOpts [['*']] (vals.getD minuteInd [])).2.2,
    (fieldVals hourOpts [['*']] (vals.getD hourInd [])).2.2,
    (fieldVals dayOpts [['*'], ['?']] (vals.getD dayInd [])).2.2,
    (fieldVals monthOpts [['*'], ['?']] (vals.getD monthInd [])).2.2,
    (fieldVals weekdayOpts [['*'], ['?']] (vals.getD weekdayInd [])).2.2]).reduceOption

/-- Spec side: a schedule is fully validated when every field either has
its accept-any flag (set exactly for the tokens its validate arm accepts)
or stores precisely the successful parse of its raw text. -/
def FullyValidated (s : Schedule) : Prop :=
  (if s.Minute ∈ [['*']] then s.allowAnyMinute = true ∧ s.minutes = []
   else s.allowAnyMinute = false ∧ parse minuteOpts s.Minute = .ok s.minutes) ∧
  (if s.Hour ∈ [['*']] then s.allowAnyHour = true ∧ s.hours = []
   else s.allowAnyHour = false ∧ parse hourOpts s.Hour = .ok s.hours) ∧
  (if s.Day ∈ [['*'], ['?']] then s.allowAnyDay = true ∧ s.days = []
   else s.allowAnyDay = false ∧ parse dayOpts s.Day = .ok s.days) ∧
  (if s.Month ∈ [['*'], ['?']] then s.allowAnyMonth = true ∧ s.months = []
   else s.allowAnyMonth = false ∧ parse monthOpts s.Month = .ok s.months) ∧
  (if s.Weekday ∈ [['*'], ['?']] then s.allowAnyWeekday = true ∧ s.weekdays = []
   else s.allowAnyWeekday = false ∧ parse weekdayOpts s.Weekday = .ok s.weekdays)

/-- Spec side: the text contains the last-day marker letter (either case;
the parser uppercases before looking for it). -/
def containsLl (v : List Char) : Bool := v.contains 'L' || v.contains 'l'

/-- Spec side: the occurrence search loop never returns, whatever fuel it
is given (this is how the Go loop running forever shows up in the fueled
model). -/
def NextDiverges (s : Schedule) (t : DateTime) : Prop :=
  ∀ fuel : Nat, Next s fuel t = none

/-- Iterated `addMinute`. -/
def addMinutes : Nat → DateTime → DateTime
  | 0, t => t
  | n + 1, t => addMinutes n (addMinute t)

/-! ## Character and string lemmas -/

/-- The only characters whose ASCII uppercase is `L` are `L` and `l`. -/
theorem toUpper_eq_L_iff (c : Char) : c.toUpper = 'L' ↔ (c = 'L' ∨ c = 'l') := by
  obtain ⟨n, hn⟩ : ∃ n, c.toNat = n := ⟨_, rfl⟩
  have hc : Char.ofNat n = c := by rw [← hn, Char.ofNat_toNat]
  subst hc
  rw [Char.toUpper, hn]
  by_cases h : 97 ≤ n ∧ n ≤ 122
  · rw [if_pos h]
    obtain ⟨h1, h2⟩ := h
    interval_cases n <;> decide
  · rw [if_neg h]
    constructor
    · intro h'; exact Or.inl h'
    · rintro (h' | h')
      · exact h'
      · exfalso
        have : n = 108 := by
          have := congrArg Char.toNat h'
          rw [hn] at this
          simpa using this
        exact h ⟨by omega, by omega⟩

/-- ASCII uppercasing never produces a lowercase `l`. -/
theorem toUpper_ne_l (c : Char) : c.toUpper ≠ 'l' := by
  obtain ⟨n, hn⟩ : ∃ n, c.toNat = n := ⟨_, rfl⟩
  have hc : Char.ofNat n = c := by rw [← hn, Char.ofNat_toNat]
  subst hc
  rw [Char.toUpper, hn]
  by_cases h : 97 ≤ n ∧ n ≤ 122
  · rw [if_pos h]
    obtain ⟨h1, h2⟩ := h
    interval_cases n <;> decide
  · rw [if_neg h]
    intro h'
    have : n = 108 := by
      have := congrArg Char.toNat h'
      rw [hn] at this
      simpa using this
    exact h ⟨by omega, by omega⟩

/-- Embeds `splitChar` always produces at least one piece. -/
theorem splitChar_ne_nil (sep : Char) (l : List Char) : splitChar sep l ≠ [] := by
  induction l with
  | nil => simp [splitChar]
  | cons c rest ih =>
    rw [splitChar]
    split
    · simp
    · cases h : splitChar sep rest with
      | nil => exact absurd h ih
      | cons p ps => simp [h]

/-- Joining the pieces of a split restores the original string. -/
theorem joinChar_splitChar (sep : Char) (l : List Char) :
    joinChar sep (splitChar sep l) = l := by
  induction l with
  | nil => rfl
  | cons c rest ih =>
    rw [splitChar]
    by_cases hc : c = sep
    · rw [if_pos hc]
      cases h : splitChar sep rest with
      | nil => exact absurd h (splitChar_ne_nil sep rest)
      | cons p ps =>
        rw [h] at ih
        subst hc
        simpa [joinChar] using ih
    · rw [if_neg hc]
      cases h : splitChar sep rest with
      | nil => exact absurd h (splitChar_ne_nil sep rest)
      | cons p ps =>
        rw [h] at ih
        cases ps with
        | nil => simpa [joinChar] using ih
        | cons q qs => simpa [joinChar] using ih

/-- Every character of every piece of a split occurs in the original. -/
theorem mem_of_mem_splitChar (sep a : Char) (l : List Char) :
    ∀ p ∈ splitChar sep l, ∀ x ∈ p, x ∈ l := by
  induction l with
  | nil =>
    intro p hp x hx
    simp [splitChar] at hp
    subst hp
    simp at hx
  | cons c rest ih =>
    intro p hp x hx
    rw [splitChar] at hp
    by_cases hc : c = sep
    · rw [if_pos hc] at hp
      rcases List.mem_cons.mp hp with h | h
      · subst h; simp at hx
      · exact List.mem_cons_of_mem c (ih p h x hx)
    · rw [if_neg hc] at hp
      cases h : splitChar sep rest with
      | nil => exact absurd h (splitChar_ne_nil sep rest)
      | cons q qs =>
        rw [h] at hp
        rcases List.mem_cons.mp hp with h' | h'
        · subst h'
          rcases List.mem_cons.mp hx with h'' | h''
          · exact h'' ▸ List.mem_cons_self c rest
          · exact List.mem_cons_of_mem c (ih q (h ▸ List.mem_cons_self q qs) x h'')
        · exact List.mem_cons_of_mem c (ih p (h ▸ List.mem_cons_of_mem q h') x hx)

/-- Both sides of a `cutChar` split draw their characters from the input. -/
theorem mem_of_cutChar (sep : Char) (l b a : List Char)
    (h : cutChar sep l = some (b, a)) : (∀ x ∈ b, x ∈ l) ∧ (∀ x ∈ a, x ∈ l) := by
  induction l generalizing b a with
  | nil => simp [cutChar] at h
  | cons c rest ih =>
    rw [cutChar] at h
    by_cases hc : c = sep
    · rw [if_pos hc] at h
      obtain ⟨hb, ha⟩ : ([] : List Char) = b ∧ rest = a := by
        simpa using h
      subst hb; subst ha
      exact ⟨by simp, fun x hx => List.mem_cons_of_mem c hx⟩
    · rw [if_neg hc] at h
      cases hcut : cutChar sep rest with
      | none => rw [hcut] at h; simp at h
      | some pr =>
        rw [hcut] at h
        obtain ⟨hb, ha⟩ : c :: pr.1 = b ∧ pr.2 = a := by
          simpa using h
        obtain ⟨ihb, iha⟩ := ih pr.1 pr.2 (by rw [hcut])
        subst hb; subst ha
        constructor
        · intro x hx
          rcases List.mem_cons.mp hx with h' | h'
          · exact h' ▸ List.mem_cons_self c rest
          · exact List.mem_cons_of_mem c (ihb x h')
        · exact fun x hx => List.mem_cons_of_mem c (iha x hx)

/-- Joining `n` pieces with a space inserts at least `n - 1` spaces. -/
theorem count_joinChar (l : List (List Char)) :
    l.length - 1 ≤ (joinChar ' ' l).count ' ' := by
  induction l with
  | nil => simp
  | cons p ps ih =>
    cases ps with
    | nil => simp
    | cons q qs =>
      have hj : joinChar ' ' (p :: q :: qs) = p ++ ' ' :: joinChar ' ' (q :: qs) := rfl
      rw [hj]
      have : (p ++ ' ' :: joinChar ' ' (q :: qs)).count ' ' =
          p.count ' ' + (1 + (joinChar ' ' (q :: qs)).count ' ') := by
        simp [List.count_append, List.count_cons]
        omega
      rw [this]
      simp only [List.length_cons] at ih ⊢
      omega

/-- The canonical string of any 5-field value list is never the unresolved
macro name `@monthly` (it contains at least four spaces). -/
theorem joinChar_ne_monthly (l : List (List Char)) (h : l.length = 5) :
    joinChar ' ' l ≠ chars "@monthly" := by
  intro he
  have hc := count_joinChar l
  rw [he, h] at hc
  have : (chars "@monthly").count ' ' = 0 := by decide
  omega

/-! ## Sorting lemmas -/

/-- Compacting a `≤`-sorted list yields a strictly sorted list whose
elements come from the input. -/
theorem compact_sorted_mem (l : List Int) (h : l.Sorted (· ≤ ·)) :
    (compact l).Sorted (· < ·) ∧ ∀ x ∈ compact l, x ∈ l := by
  induction l with
  | nil => simp [compact]
  | cons a rest ih =>
    cases rest with
    | nil => simp [compact]
    | cons b rs =>
      obtain ⟨hab, hrest⟩ := List.sorted_cons.mp h
      obtain ⟨ihs, ihm⟩ := ih hrest
      rw [compact]
      by_cases he : a = b
      · rw [if_pos he]
        exact ⟨ihs, fun x hx => List.mem_cons_of_mem a (ihm x hx)⟩
      · rw [if_neg he]
        refine ⟨List.sorted_cons.mpr ⟨?_, ihs⟩, ?_⟩
        · intro x hx
          have hxm := ihm x hx
          have hb : a < b := lt_of_le_of_ne (hab b (List.mem_cons_self b rs)) he
          rcases List.mem_cons.mp hxm with h' | h'
          · omega
          · have := (List.sorted_cons.mp hrest).1 x h'
            omega
        · intro x hx
          rcases List.mem_cons.mp hx with h' | h'
          · exact h' ▸ List.mem_cons_self a (b :: rs)
          · exact List.mem_cons_of_mem a (ihm x h')

/-- Embeds `compact` of a nonempty list is nonempty. -/
theorem compact_ne_nil (a : Int) (l : List Int) : compact (a :: l) ≠ [] := by
  induction l generalizing a with
  | nil => simp [compact]
  | cons b rs ih =>
    rw [compact]
    by_cases he : a = b
    · rw [if_pos he]; exact ih b
    · rw [if_neg he]; simp

/-- The deferred sort produces a strictly ascending list. -/
theorem sortCompact_sorted (l : List Int) : (sortCompact l).Sorted (· < ·) :=
  (compact_sorted_mem _ (List.sorted_insertionSort _ l)).1

/-- The deferred sort only rearranges and deduplicates. -/
theorem mem_of_mem_sortCompact (l : List Int) (x : Int) (h : x ∈ sortCompact l) :
    x ∈ l :=
  (List.perm_insertionSort (· ≤ ·) l).mem_iff.mp
    ((compact_sorted_mem _ (List.sorted_insertionSort _ l)).2 x h)

/-- The deferred sort returns the empty list only on the empty list. -/
theorem sortCompact_eq_nil (l : List Int) (h : sortCompact l = []) : l = [] := by
  cases hs : List.insertionSort (· ≤ ·) l with
  | nil =>
    have hp := List.perm_insertionSort (· ≤ ·) l
    rw [hs] at hp
    exact hp.symm.eq_nil
  | cons a t =>
    exfalso
    rw [sortCompact, hs] at h
    exact compact_ne_nil a t h

/-! ## Civil-time lemmas -/

/-- Chronological order is transitive. -/
theorem DateTime.lt_trans {a b c : DateTime} (h1 : a.lt b) (h2 : b.lt c) :
    a.lt c := by
  unfold DateTime.lt at *
  omega

/-- Every month has at least 28 days. -/
theorem daysInMonth_pos (y : Int) (m : Nat) : 28 ≤ daysInMonth y m := by
  unfold daysInMonth
  split_ifs <;> omega

/-- December has 31 days. -/
theorem daysInMonth_december (y : Int) : daysInMonth y 12 = 31 := by
  simp [daysInMonth]

/-- January has 31 days. -/
theorem daysInMonth_january (y : Int) : daysInMonth y 1 = 31 := by
  simp [daysInMonth]

/-- February never has more than 29 days. -/
theorem daysInMonth_feb_le (y : Int) : daysInMonth y 2 ≤ 29 := by
  unfold daysInMonth
  split_ifs <;> omega

/-- Adding a minute strictly advances the clock. -/
theorem lt_addMinute (t : DateTime) : t.lt (addMinute t) := by
  unfold addMinute DateTime.lt
  split_ifs <;> simp_all

/-- Adding a minute preserves well-formedness. -/
theorem addMinute_valid {t : DateTime} (h : t.Valid) : (addMinute t).Valid := by
  obtain ⟨h1, h2, h3, h4, h5, h6⟩ := h
  have hp1 := daysInMonth_pos t.year (t.month + 1)
  have hp2 := daysInMonth_pos (t.year + 1) 1
  unfold addMinute DateTime.Valid
  split_ifs <;> simp_all <;> omega

/-- Subtracting a minute strictly recedes the clock (on well-formed times;
the year is an integer, so there is no bottom to wrap at). -/
theorem subMinute_lt {t : DateTime} (h : t.Valid) : (subMinute t).lt t := by
  obtain ⟨h1, h2, h3, h4, h5, h6⟩ := h
  unfold subMinute DateTime.lt
  split_ifs <;> simp_all <;> omega

/-- Subtracting a minute preserves well-formedness. -/
theorem subMinute_valid {t : DateTime} (h : t.Valid) : (subMinute t).Valid := by
  obtain ⟨h1, h2, h3, h4, h5, h6⟩ := h
  have hp1 := daysInMonth_pos t.year (t.month - 1)
  have hp2 := daysInMonth_december (t.year - 1)
  unfold subMinute DateTime.Valid
  split_ifs <;> simp_all <;> omega

/-! ## Occurrence-search lemmas -/

/-- Whenever the forward minute-stepping loop returns, the result is
strictly after the start and matches the schedule. -/
theorem nextFuel_sound (s : Schedule) :
    ∀ fuel t r, nextFuel s fuel t = some r → t.lt r ∧ s.Matches r = true := by
  intro fuel
  induction fuel with
  | zero => intro t r h; simp [nextFuel] at h
  | succ n ih =>
    intro t r h
    rw [nextFuel] at h
    by_cases hm : s.Matches (addMinute t) = true
    · rw [if_pos hm] at h
      obtain rfl : addMinute t = r := by simpa using h
      exact ⟨lt_addMinute t, hm⟩
    · rw [if_neg hm] at h
      obtain ⟨hlt, hmatch⟩ := ih (addMinute t) r h
      exact ⟨DateTime.lt_trans (lt_addMinute t) hlt, hmatch⟩

/-- Whenever the backward minute-stepping loop returns (from a well-formed
time), the result is strictly before the start and matches the schedule. -/
theorem prevFuel_sound (s : Schedule) :
    ∀ fuel t r, t.Valid → prevFuel s fuel t = some r →
      r.lt t ∧ s.Matches r = true := by
  intro fuel
  induction fuel with
  | zero => intro t r _ h; simp [prevFuel] at h
  | succ n ih =>
    intro t r hv h
    rw [prevFuel] at h
    by_cases hm : s.Matches (subMinute t) = true
    · rw [if_pos hm] at h
      obtain rfl : subMinute t = r := by simpa using h
      exact ⟨subMinute_lt hv, hm⟩
    · rw [if_neg hm] at h
      obtain ⟨hlt, hmatch⟩ := ih (subMinute t) r (subMinute_valid hv) h
      exact ⟨DateTime.lt_trans hlt (subMinute_lt hv), hmatch⟩

/-- Splitting the forward search: if the first `a` minutes do not match,
the search resumes `a` minutes later. -/
theorem nextFuel_chunk (s : Schedule) :
    ∀ a b t, nextFuel s a t = none →
      nextFuel s (a + b) t = nextFuel s b (addMinutes a t) := by
  intro a
  induction a with
  | zero => intro b t _; simp [addMinutes]
  | succ n ih =>
    intro b t h
    rw [nextFuel] at h
    by_cases hm : s.Matches (addMinute t) = true
    · rw [if_pos hm] at h; simp at h
    · rw [if_neg hm] at h
      have hsum : n + 1 + b = (n + b) + 1 := by omega
      rw [hsum, nextFuel, if_neg hm]
      have hit : addMinutes (n + 1) t = addMinutes n (addMinute t) := rfl
      rw [hit]
      exact ih b (addMinute t) h

/-- If no well-formed time matches a schedule, the forward search loop
never returns from a well-formed start. -/
theorem nextFuel_never (s : Schedule) (hnever : ∀ u, u.Valid → s.Matches u = false) :
    ∀ fuel t, t.Valid → nextFuel s fuel t = none := by
  intro fuel
  induction fuel with
  | zero => intro t _; rfl
  | succ n ih =>
    intro t hv
    rw [nextFuel]
    rw [if_neg (by simp [hnever (addMinute t) (addMinute_valid hv)])]
    exact ih (addMinute t) (addMinute_valid hv)

/-! ## Parser helper lemmas -/

/-- Membership in the Go counting loop. -/
theorem mem_intRange {lo hi v : Int} (h : v ∈ intRange lo hi) :
    lo ≤ v ∧ v ≤ hi := by
  unfold intRange at h
  rcases List.mem_map.mp h with ⟨i, hi', rfl⟩
  rw [List.mem_range] at hi'
  simp only [Int.ofNat_eq_natCast]
  omega

/-- The counting loop is nonempty when the bounds are ordered. -/
theorem intRange_ne_nil {lo hi : Int} (h : lo ≤ hi) : intRange lo hi ≠ [] := by
  intro hc
  have hl : (intRange lo hi).length = (hi + 1 - lo).toNat := by
    simp [intRange]
  rw [hc] at hl
  simp only [List.length_nil] at hl
  omega

/-- A successful alias lookup returns a value stored in the table. -/
theorem lookupConv_mem {L : List (List Char × Int)} {s : List Char} {v : Int}
    (h : lookupConv L s = some v) : ∃ k, (k, v) ∈ L := by
  induction L with
  | nil => simp [lookupConv] at h
  | cons p rest ih =>
    obtain ⟨k, w⟩ := p
    rw [lookupConv] at h
    by_cases he : k = s
    · rw [if_pos he] at h
      obtain rfl : w = v := by simpa using h
      exact ⟨k, List.mem_cons_self _ _⟩
    · rw [if_neg he] at h
      obtain ⟨k', hk⟩ := ih h
      exact ⟨k', List.mem_cons_of_mem _ hk⟩

/-- Every value produced by the list loop comes from one of the entry
results. -/
theorem parseListCombine_mem {f : CronField} :
    ∀ {rs : List (Except String (List Int))} {vs : List Int},
      parseListCombine f rs = .ok vs →
      ∀ v ∈ vs, ∃ ws, Except.ok ws ∈ rs ∧ v ∈ ws := by
  intro rs
  induction rs with
  | nil =>
    intro vs h v hv
    obtain rfl : ([] : List Int) = vs := by simpa [parseListCombine] using h
    simp at hv
  | cons r rest ih =>
    intro vs h v hv
    match r with
    | .error e => simp [parseListCombine] at h
    | .ok sv =>
      rw [parseListCombine] at h
      cases hrest : parseListCombine f rest with
      | error e => rw [hrest] at h; simp at h
      | ok ws =>
        rw [hrest] at h
        obtain rfl : sv ++ ws = vs := by simpa using h
        rcases List.mem_append.mp hv with h' | h'
        · exact ⟨sv, List.mem_cons_self _ _, h'⟩
        · obtain ⟨ws', hin, hv'⟩ := ih hrest v h'
          exact ⟨ws', List.mem_cons_of_mem _ hin, hv'⟩

/-- If the list loop succeeds with no values, every entry succeeded with no
values. -/
theorem parseListCombine_ok_nil {f : CronField} :
    ∀ {rs : List (Except String (List Int))},
      parseListCombine f rs = .ok [] → ∀ r ∈ rs, r = .ok [] := by
  intro rs
  induction rs with
  | nil => intro _ r hr; simp at hr
  | cons r rest ih =>
    intro h r' hr'
    match r with
    | .error e => simp [parseListCombine] at h
    | .ok sv =>
      rw [parseListCombine] at h
      cases hrest : parseListCombine f rest with
      | error e => rw [hrest] at h; simp at h
      | ok ws =>
        rw [hrest] at h
        obtain ⟨hsv, hws⟩ : sv = [] ∧ ws = [] := by
          have : sv ++ ws = [] := by simpa using h
          simpa using this
        rcases List.mem_cons.mp hr' with h' | h'
        · subst h'; rw [hsv]
        · exact ih (hws ▸ hrest) r' h'

/-- Embeds `stepValues` selects a subset of its input. -/
theorem stepValues_subset {l : List Int} {k v : Int} (h : v ∈ stepValues l k) :
    v ∈ l := by
  simp only [stepValues] at h
  have hsub : v ∈ l.enum.map Prod.snd :=
    List.map_subset _ (List.filter_sublist _).subset h
  rw [List.enum] at hsub
  rwa [List.enumFrom_map_snd] at hsub

/-- Embeds `stepValues` always keeps index 0. -/
theorem stepValues_ne_nil {a : Int} {l : List Int} (k : Int) :
    stepValues (a :: l) k ≠ [] := by
  simp only [stepValues, List.enum_cons]
  rw [List.filter_cons_of_pos]
  · simp
  · simp

/-- Inversion for `Except.map` hitting `.ok`. -/
theorem except_map_ok {α β : Type} (g : α → β) (e : Except String α) (v : β) :
    Except.map g e = .ok v ↔ ∃ w, e = .ok w ∧ v = g w := by
  cases e with
  | error a => simp [Except.map]
  | ok a =>
    simp only [Except.map, Except.ok.injEq]
    constructor
    · intro h; exact ⟨a, rfl, h.symm⟩
    · rintro ⟨w, hw, rfl⟩
      obtain rfl : a = w := by simpa using hw
      rfl

/-- Inversion for an error-guarding `if` hitting `.ok`. -/
theorem ite_error_ok {c : Prop} [Decidable c] {e : String} {x : List Int} {v : List Int}
    (h : (if c then Except.error e else Except.ok x) = Except.ok v) : x = v := by
  split at h
  · simp at h
  · simpa using h

/-- Every value produced by the step logic comes from the base parse or
from the field's allowed list. -/
theorem parseStepWith_mem {f : CronField} {b a : List Char}
    {res : Except String (List Int)} {vs : List Int}
    (h : parseStepWith f b a res = .ok vs) :
    ∀ v ∈ vs, (∃ ws, res = .ok ws ∧ v ∈ ws) ∨ v ∈ f.Allowed := by
  unfold parseStepWith at h
  split at h
  · simp at h
  split at h
  · simp at h
  split at h
  · simp at h
  cases hres : res with
  | error e => rw [hres] at h; simp at h
  | ok srv =>
    rw [hres] at h
    simp only at h
    by_cases hl : srv.length = 1
    · rw [if_pos hl] at h
      have hv := ite_error_ok h
      intro v hmem
      rw [← hv] at hmem
      have hv' := stepValues_subset hmem
      rcases List.mem_append.mp hv' with h' | h'
      · exact Or.inl ⟨srv, rfl, h'⟩
      · exact Or.inr (List.mem_of_mem_filter h')
    · rw [if_neg hl] at h
      have hv := ite_error_ok h
      intro v hmem
      rw [← hv] at hmem
      exact Or.inl ⟨srv, rfl, stepValues_subset hmem⟩

/-- If the step logic succeeds with no values, the base parse succeeded
with no values. -/
theorem parseStepWith_ok_nil {f : CronField} {b a : List Char}
    {res : Except String (List Int)}
    (h : parseStepWith f b a res = .ok []) : res = .ok [] := by
  unfold parseStepWith at h
  split at h
  · simp at h
  split at h
  · simp at h
  split at h
  · simp at h
  cases hres : res with
  | error e => rw [hres] at h; simp at h
  | ok srv =>
    rw [hres] at h
    simp only at h
    by_cases hl : srv.length = 1
    · rw [if_pos hl] at h
      have hv := ite_error_ok h
      exfalso
      cases hsrv : srv ++ f.Allowed.filter (fun av => srv.headD 0 < av) with
      | nil =>
        cases srv with
        | nil => simp at hl
        | cons x xs => simp at hsrv
      | cons x xs =>
        rw [hsrv] at hv
        exact stepValues_ne_nil _ hv
    · rw [if_neg hl] at h
      have hv := ite_error_ok h
      cases hsrv : srv with
      | nil => rfl
      | cons x xs =>
        rw [hsrv] at hv
        exact absurd hv (stepValues_ne_nil _)

/-- Inversion of the range logic: both sides parsed to singletons, the
bounds are strictly ordered, and the result is the inclusive range. -/
theorem parseRangeWith_ok {f : CronField} {a : List Char}
    {res1 res2 : Except String (List Int)} {vs : List Int}
    (h : parseRangeWith f a res1 res2 = .ok vs) :
    ∃ st en, res1 = .ok [st] ∧ res2 = .ok [en] ∧ st < en ∧ vs = intRange st en := by
  unfold parseRangeWith at h
  split at h
  · simp at h
  cases hres1 : res1 with
  | error e => rw [hres1] at h; simp at h
  | ok startMin =>
    rw [hres1] at h
    simp only at h
    split at h
    · simp at h
    split at h
    · simp at h
    cases hres2 : res2 with
    | error e => rw [hres2] at h; simp at h
    | ok endMin =>
      rw [hres2] at h
      simp only at h
      split at h
      · simp at h
      split at h
      · simp at h
      rename_i hne hlen1 hne2 hlen2
      obtain ⟨st, rfl⟩ : ∃ st, startMin = [st] := by
        cases startMin with
        | nil => simp at hne
        | cons x xs =>
          cases xs with
          | nil => exact ⟨x, rfl⟩
          | cons y ys => simp at hlen1
      obtain ⟨en, rfl⟩ : ∃ en, endMin = [en] := by
        cases endMin with
        | nil => simp at hne2
        | cons x xs =>
          cases xs with
          | nil => exact ⟨x, rfl⟩
          | cons y ys => simp at hlen2
      simp only [List.headD_cons] at h
      split at h
      · simp at h
      rename_i hcmp
      refine ⟨st, en, rfl, rfl, by omega, by simpa using h.symm⟩

/-- Bounds invariant of the field parser: under the static facts that the
allowed list and the alias table stay within `[Min, Max]`, every value a
successful parse returns lies within `[Min, Max]`. -/
theorem parseF_bounds (f : CronField)
    (hA : ∀ x ∈ f.Allowed, f.Min ≤ x ∧ x ≤ f.Max)
    (hC : ∀ p ∈ f.Conversions, f.Min ≤ p.2 ∧ p.2 ≤ f.Max) :
    ∀ fuel s vs, parseF f fuel s = .ok vs → ∀ v ∈ vs, f.Min ≤ v ∧ v ≤ f.Max := by
  intro fuel
  induction fuel with
  | zero => intro s vs h; simp [parseF] at h
  | succ n ih =>
    intro s vs h
    rw [parseF, except_map_ok] at h
    obtain ⟨w, hbody, rfl⟩ := h
    intro v hv
    have hv' : v ∈ w := mem_of_mem_sortCompact _ _ hv
    clear hv
    split at hbody
    · simp at hbody
    split at hbody
    · simp at hbody
    split at hbody
    · -- wildcard: the full allowed range
      obtain rfl : intRange f.Min f.Max = w := by simpa using hbody
      exact mem_intRange hv'
    split at hbody
    · -- alias hit
      rename_i v' hconv
      obtain rfl : [v'] = w := by simpa using hbody
      obtain rfl : v = v' := by simpa using hv'
      obtain ⟨k, hk⟩ := lookupConv_mem hconv
      exact hC (k, v) hk
    split at hbody
    · -- integer literal with explicit bounds checks
      rename_i m hatoi
      split at hbody
      · simp at hbody
      split at hbody
      · simp at hbody
      rename_i hmin hmax
      obtain rfl : [m] = w := by simpa using hbody
      obtain rfl : v = m := by simpa using hv'
      omega
    split at hbody
    · simp at hbody
    split at hbody
    · -- list entry
      obtain ⟨ws, hin, hvw⟩ := parseListCombine_mem hbody v hv'
      obtain ⟨p, _, hp⟩ := List.mem_map.mp hin
      exact ih p ws hp v hvw
    split at hbody
    · -- step entry
      rcases parseStepWith_mem hbody v hv' with ⟨ws, hws, hvw⟩ | hall
      · exact ih _ ws hws v hvw
      · exact hA v hall
    split at hbody
    · -- range entry
      obtain ⟨st, en, h1, h2, hlt, rfl⟩ := parseRangeWith_ok hbody
      have hst := ih _ _ h1 st (List.mem_cons_self st [])
      have hen := ih _ _ h2 en (List.mem_cons_self en [])
      have := mem_intRange hv'
      omega
    · -- the "L" fall-through returns no values
      obtain rfl : ([] : List Int) = w := by simpa using hbody
      simp at hv'

/-- Embeds `strings.Cut` finds nothing exactly when the separator is absent. -/
theorem cutChar_none {sep : Char} : ∀ {l : List Char},
    cutChar sep l = none → l.contains sep = false := by
  intro l
  induction l with
  | nil => intro _; rfl
  | cons c rest ih =>
    intro h
    rw [cutChar] at h
    by_cases hc : c = sep
    · rw [if_pos hc] at h; simp at h
    · rw [if_neg hc] at h
      cases hcut : cutChar sep rest with
      | none =>
        have := ih hcut
        simp only [List.contains_cons]
        rw [this]
        simpa using fun he => hc (by simpa using he.symm)
      | some pr => rw [hcut] at h; simp at h

/-- A character of the uppercased text that is `L` or `l` witnesses the
last-day marker in the original text. -/
theorem containsLl_of_upper_mem {s : List Char} {c : Char}
    (hc : c ∈ asciiUpper s) (hL : c = 'L' ∨ c = 'l') : containsLl s = true := by
  obtain ⟨c0, hc0, hup⟩ := List.mem_map.mp hc
  have hgoal : 'L' ∈ s ∨ 'l' ∈ s → containsLl s = true := by
    intro hm
    simp only [containsLl, Bool.or_eq_true]
    rcases hm with hm | hm
    · exact Or.inl (List.elem_eq_true_of_mem hm)
    · exact Or.inr (List.elem_eq_true_of_mem hm)
  rcases hL with h | h
  · rw [h] at hup
    rcases (toUpper_eq_L_iff c0).mp hup with h' | h'
    · exact hgoal (Or.inl (h' ▸ hc0))
    · exact hgoal (Or.inr (h' ▸ hc0))
  · rw [h] at hup
    exact absurd hup (toUpper_ne_l c0)

/-- An uppercased text containing `L` contains the marker in either case. -/
theorem containsLl_of_upper {s : List Char}
    (h : (asciiUpper s).contains 'L' = true) : containsLl s = true := by
  have hm : 'L' ∈ asciiUpper s := by
    simpa using h
  exact containsLl_of_upper_mem hm (Or.inl rfl)

/-- The only way the field parser succeeds with an empty value set is via
the `L` (last day of month) fall-through, so the parsed text contains the
letter `L` in some case — in any field. -/
theorem parseF_ok_nil_containsL (f : CronField) (hMM : f.Min ≤ f.Max) :
    ∀ fuel s, parseF f fuel s = .ok [] → containsLl s = true := by
  intro fuel
  induction fuel with
  | zero => intro s h; simp [parseF] at h
  | succ n ih =>
    intro s h
    rw [parseF, except_map_ok] at h
    obtain ⟨w, hbody, hnil⟩ := h
    obtain rfl : w = [] := sortCompact_eq_nil w hnil.symm
    split at hbody
    · simp at hbody
    split at hbody
    · simp at hbody
    split at hbody
    · exact absurd (by simpa using hbody) (intRange_ne_nil hMM)
    split at hbody
    · simp at hbody
    split at hbody
    · split at hbody
      · simp at hbody
      split at hbody
      · simp at hbody
      simp at hbody
    split at hbody
    · simp at hbody
    split at hbody
    · -- list entry: every piece parsed to the empty set
      rename_i hcomma
      have hall := parseListCombine_ok_nil hbody
      cases hsp : splitChar ',' (asciiUpper s) with
      | nil => exact absurd hsp (splitChar_ne_nil ',' _)
      | cons p ps =>
        have hp : parseF f n p = .ok [] :=
          hall (parseF f n p) (by
            rw [hsp]
            exact List.mem_map_of_mem _ (List.mem_cons_self p ps))
        have hpl := ih p hp
        rcases (by simpa [containsLl] using hpl :
            p.contains 'L' = true ∨ p.contains 'l' = true) with h' | h'
        · have : 'L' ∈ p := by simpa using h'
          exact containsLl_of_upper_mem
            (mem_of_mem_splitChar ',' 'L' _ p (hsp ▸ List.mem_cons_self p ps) 'L' this)
            (Or.inl rfl)
        · have : 'l' ∈ p := by simpa using h'
          exact containsLl_of_upper_mem
            (mem_of_mem_splitChar ',' 'l' _ p (hsp ▸ List.mem_cons_self p ps) 'l' this)
            (Or.inr rfl)
    split at hbody
    · -- step entry: the base range parsed to the empty set
      rename_i pr b a hcut
      have hb := parseStepWith_ok_nil hbody
      have hbl := ih b hb
      obtain ⟨hbs, _⟩ := mem_of_cutChar '/' (asciiUpper s) b a hcut
      rcases (by simpa [containsLl] using hbl :
          b.contains 'L' = true ∨ b.contains 'l' = true) with h' | h'
      · exact containsLl_of_upper_mem (hbs 'L' (by simpa using h')) (Or.inl rfl)
      · exact containsLl_of_upper_mem (hbs 'l' (by simpa using h')) (Or.inr rfl)
    split at hbody
    · -- range entry never yields the empty set
      obtain ⟨st, en, _, _, hlt, hr⟩ := parseRangeWith_ok hbody
      exact absurd hr.symm (intRange_ne_nil (by omega))
    · -- the "L" fall-through: the uppercased text contains none of the
      -- other special characters, so the guard that let it through must
      -- have seen the letter L
      rename_i hguard hcomma hx1 hstep hx2 hrange
      have hncomma : (asciiUpper s).contains ',' = false := by
        simpa using hcomma
      have hnstep : (asciiUpper s).contains '/' = false := cutChar_none hstep
      have hnrange : (asciiUpper s).contains '-' = false := cutChar_none hrange
      have hL : (asciiUpper s).contains 'L' = true := by
        by_contra hnot
        apply hguard
        simp only [Bool.not_eq_true] at hnot
        simp only [Bool.not_eq_true', Bool.or_eq_false_iff]
        exact ⟨⟨⟨hncomma, hnrange⟩, hnstep⟩, hnot⟩
      exact containsLl_of_upper hL

/-! ## Construction lemmas -/

/-- The parsed-field arm stores the raw fields verbatim. -/
theorem validate_values (vals : List (List Char)) : (validate vals).1.values = vals := rfl

/-- Inversion of `New`: a returned schedule was validated from the
space-split of the macro-resolved, trimmed expression (exactly 5 fields),
and its canonical string is the resolved expression itself. -/
theorem New_inv {cron : List Char} {s : Schedule} {errs : List String}
    (h : New cron = some (s, errs)) :
    s.values = splitChar ' ' (cronShortcut (trimSpace cron)) ∧
    s.values.length = 5 ∧ validate s.values = (s, errs) ∧
    s.string = cronShortcut (trimSpace cron) := by
  unfold New at h
  dsimp only at h
  split at h
  · simp at h
  obtain hv : validate (splitChar ' ' (cronShortcut (trimSpace cron))) = (s, errs) := by
    simpa using h
  have hvals : s.values = splitChar ' ' (cronShortcut (trimSpace cron)) := by
    have := congrArg (fun p => p.1.values) hv
    simpa [validate_values] using this.symm
  refine ⟨hvals, ?_, ?_, ?_⟩
  · rw [hvals]
    rename_i hlen
    simpa using hlen
  · rw [hvals]; exact hv
  · rw [Schedule.string, hvals, joinChar_splitChar]

/-- The canonical string of any constructed schedule has four spaces in it,
so the `@monthly` fast-path comparison can never succeed. -/
theorem string_ne_monthly {cron : List Char} {s : Schedule} {errs : List String}
    (h : New cron = some (s, errs)) : s.string ≠ chars "@monthly" := by
  obtain ⟨_, hlen, _, _⟩ := New_inv h
  rw [Schedule.string]
  exact joinChar_ne_monthly s.values hlen

/-! ## Claim theorems -/

/-- C9: in every state, `Suspend` succeeds (returning true and moving to
`Suspended`) exactly from `Started` and otherwise leaves the state
unchanged returning false; `Resume` succeeds exactly `Suspended`→`Started`;
`Stop` always lands in `Stopped` and returns true iff the state was not
already `Stopped`; and `Start` errors with no state change when the job is
stopped or was previously started, succeeding otherwise. -/
theorem c9_job_state_machine (j : JobState) :
    (j.Suspend.2 = true ↔ j.state = ScheduleStarted) ∧
    (j.state = ScheduleStarted → j.Suspend = ({ j with state := ScheduleSuspended }, true)) ∧
    (j.state ≠ ScheduleStarted → j.Suspend = (j, false)) ∧
    (j.Resume.2 = true ↔ j.state = ScheduleSuspended) ∧
    (j.state = ScheduleSuspended → j.Resume = ({ j with state := ScheduleStarted }, true)) ∧
    (j.state ≠ ScheduleSuspended → j.Resume = (j, false)) ∧
    j.Stop.1.state = ScheduleStopped ∧
    (j.Stop.2 = true ↔ j.state ≠ ScheduleStopped) ∧
    (j.state = ScheduleStopped ∨ j.previouslyStarted = true →
      ∃ e, j.Start = Except.error e) ∧
    (j.state ≠ ScheduleStopped ∧ j.previouslyStarted = false →
      j.Start = .ok { state := ScheduleStarted, previouslyStarted := true }) := by
  unfold JobState.Suspend JobState.Resume JobState.Stop JobState.Start
  refine ⟨?_, ?_, ?_, ?_, ?_, ?_, ?_, ?_, ?_, ?_⟩
  · split_ifs <;> simp_all
  · intro hcase; rw [if_pos hcase]
  · intro hcase; rw [if_neg hcase]
  · split_ifs <;> simp_all
  · intro hcase; rw [if_pos hcase]
  · intro hcase; rw [if_neg hcase]
  · rfl
  · simp
  · rintro (h | h)
    · rw [if_pos h]; exact ⟨_, rfl⟩
    · split_ifs <;> exact ⟨_, rfl⟩
  · rintro ⟨h1, h2⟩
    rw [if_neg h1, h2]
    rfl

/-- C9 witness: the theorem applied in the `Started` state and in the
`Stopped` state. -/
theorem c9_witness :
    JobState.Suspend ⟨ScheduleStarted, false⟩ = (⟨ScheduleSuspended, false⟩, true) ∧
    (∃ e, JobState.Start ⟨ScheduleStopped, false⟩ = Except.error e) := by
  constructor
  · exact (c9_job_state_machine ⟨ScheduleStarted, false⟩).2.1 rfl
  · exact (c9_job_state_machine ⟨ScheduleStopped, false⟩).2.2.2.2.2.2.2.2.1 (Or.inl rfl)

/-- Job options for the C10 scenario: no total-failure limit, 3 consecutive
failures allowed. -/
def optsC10 : ScheduledJobOptions := ⟨0, 3⟩

/-- Fresh counters. -/
def countersZero : JobCounters := ⟨0, 0, 0, false⟩

/-- C10: with `maxConsecutiveFailures = 3` and an always-failing callback,
the job requests a stop after exactly 3 consecutive failures (not after 1
or 2), with `Runs = Failures = 3`, and consuming the stop request lands in
`Stopped`; any successful invocation resets `ConsecutiveFailures` to zero
without touching `Failures` or issuing a stop request. -/
theorem c10_consecutive_failures :
    (execFailN optsC10 countersZero 3).stopRequested = true ∧
    (execFailN optsC10 countersZero 2).stopRequested = false ∧
    (execFailN optsC10 countersZero 1).stopRequested = false ∧
    (execFailN optsC10 countersZero 3).Runs = 3 ∧
    (execFailN optsC10 countersZero 3).Failures = 3 ∧
    (consumeStop ⟨ScheduleStarted, true⟩ (execFailN optsC10 countersZero 3)).1.state
      = ScheduleStopped ∧
    (∀ (opts : ScheduledJobOptions) (c : JobCounters),
      (execute opts c true).ConsecutiveFailures = 0 ∧
      (execute opts c true).stopRequested = c.stopRequested ∧
      (execute opts c true).Failures = c.Failures ∧
      (execute opts c true).Runs = c.Runs + 1) := by
  refine ⟨by decide, by decide, by decide, by decide, by decide, by decide, ?_⟩
  intro opts c
  exact ⟨rfl, rfl, rfl, rfl⟩

/-- C3 counterexample: both an `L` in the minute field and an `L` inside a
day-field list are accepted by construction with an empty combined error,
not reported as syntax errors. -/
theorem c3_counterexample :
    (New (chars "L 0 1 1 *")).map Prod.snd = some [] ∧
    (New (chars "0 0 1,L * *")).map Prod.snd = some [] := by
  exact ⟨rfl, rfl⟩

/-- The schedule built from `"0 0 1,L * *"`. -/
def schedDayList : Schedule := (validate (splitChar ' ' (chars "0 0 1,L * *"))).1

/-- C3 (amended): parsing the literal `L` succeeds in every field, alone or
inside a list, contributing no values; only a day field that is exactly the
single character `L` activates last-day-of-month matching, so a combined
entry like `"1,L"` matches day 1 only — not even the last day of a month
(2024-01-31 below). -/
theorem c3_l_silently_accepted :
    parse minuteOpts ['L'] = .ok [] ∧
    parse hourOpts ['L'] = .ok [] ∧
    parse dayOpts ['L'] = .ok [] ∧
    parse monthOpts ['L'] = .ok [] ∧
    parse weekdayOpts ['L'] = .ok [] ∧
    parse dayOpts (chars "1,L") = .ok [1] ∧
    New (chars "0 0 1,L * *") = some (schedDayList, []) ∧
    schedDayList.days = [1] ∧
    schedDayList.isDay ⟨2024, 1, 1, 0, 0⟩ = true ∧
    schedDayList.isDay ⟨2024, 1, 31, 0, 0⟩ = false := by
  exact ⟨rfl, rfl, rfl, rfl, rfl, rfl, rfl, rfl, by decide, by decide⟩

/-- The schedule built from `"0 L 1 1 *"`. -/
def schedC6 : Schedule := (validate (splitChar ' ' (chars "0 L 1 1 *"))).1

/-- C6 counterexample: construction of `"0 L 1 1 *"` succeeds with no error,
yet the hour field has an empty accepted set without its accept-any flag,
and the exempted day-field-`L` case does not apply (the day field is `1`). -/
theorem c6_counterexample :
    New (chars "0 L 1 1 *") = some (schedC6, []) ∧
    schedC6.allowAnyHour = false ∧
    schedC6.hours = [] ∧
    schedC6.Day ≠ ['L'] := by
  exact ⟨rfl, rfl, rfl, by decide⟩

/-- A five-element option list reduces to nothing only if every entry is
`none`. -/
theorem reduceOption5_nil {a b c d e : Option String}
    (h : ([a, b, c, d, e] : List (Option String)).reduceOption = []) :
    a = none ∧ b = none ∧ c = none ∧ d = none ∧ e = none := by
  cases a <;> cases b <;> cases c <;> cases d <;> cases e <;>
    simp_all [List.reduceOption_cons_of_some, List.reduceOption_cons_of_none,
      List.reduceOption_nil]

/-- A validated field with no error either took the accept-any arm, parsed
to a nonempty set, or had an `L` marker in its text. -/
theorem fieldVals_empty_cases (f : CronField) (anyToks : List (List Char))
    (v : List Char) (hMM : f.Min ≤ f.Max)
    (herr : (fieldVals f anyToks v).2.2 = none) :
    (fieldVals f anyToks v).2.1 = true ∨ (fieldVals f anyToks v).1 ≠ [] ∨
      containsLl v = true := by
  unfold fieldVals at herr ⊢
  by_cases hv : v ∈ anyToks
  · rw [if_pos hv]
    exact Or.inl rfl
  · rw [if_neg hv] at herr ⊢
    cases hp : parse f v with
    | error e => rw [hp] at herr; simp at herr
    | ok vs =>
      dsimp only
      by_cases hnil : vs = []
      · subst hnil
        exact Or.inr (Or.inr (parseF_ok_nil_containsL f hMM _ v hp))
      · exact Or.inr (Or.inl (by simpa using hnil))

/-- C6 (amended): in every schedule constructed without error, each field's
accepted-value set is non-empty unless that field's accept-any flag is set
or the field's raw text contains the letter `L` (in either case) — the
last-day marker, which the parser accepts in any field contributing no
values. -/
theorem c6_nonempty_unless_any_or_L (cron : List Char) (s : Schedule)
    (h : New cron = some (s, [])) :
    (s.allowAnyMinute = true ∨ s.minutes ≠ [] ∨ containsLl s.Minute = true) ∧
    (s.allowAnyHour = true ∨ s.hours ≠ [] ∨ containsLl s.Hour = true) ∧
    (s.allowAnyDay = true ∨ s.days ≠ [] ∨ containsLl s.Day = true) ∧
    (s.allowAnyMonth = true ∨ s.months ≠ [] ∨ containsLl s.Month = true) ∧
    (s.allowAnyWeekday = true ∨ s.weekdays ≠ [] ∨ containsLl s.Weekday = true) := by
  obtain ⟨_, _, hval, _⟩ := New_inv h
  have hs : (validate s.values).1 = s := congrArg Prod.fst hval
  have herr : (validate s.values).2 = [] := congrArg Prod.snd hval
  have herr5 :
      ([(fieldVals minuteOpts [['*']] (s.values.getD minuteInd [])).2.2,
        (fieldVals hourOpts [['*']] (s.values.getD hourInd [])).2.2,
        (fieldVals dayOpts [['*'], ['?']] (s.values.getD dayInd [])).2.2,
        (fieldVals monthOpts [['*'], ['?']] (s.values.getD monthInd [])).2.2,
        (fieldVals weekdayOpts [['*'], ['?']]
          (s.values.getD weekdayInd [])).2.2] :
        List (Option String)).reduceOption = [] := herr
  obtain ⟨e1, e2, e3, e4, e5⟩ := reduceOption5_nil herr5
  refine ⟨?_, ?_, ?_, ?_, ?_⟩
  · have hc := fieldVals_empty_cases minuteOpts [['*']]
      (s.values.getD minuteInd []) (by decide) e1
    have hm : s.minutes = (fieldVals minuteOpts [['*']] (s.values.getD minuteInd [])).1 := by
      rw [← hs]; rfl
    have hf : s.allowAnyMinute =
        (fieldVals minuteOpts [['*']] (s.values.getD minuteInd [])).2.1 := by
      rw [← hs]; rfl
    rw [hm, hf, Schedule.Minute]
    exact hc
  · have hc := fieldVals_empty_cases hourOpts [['*']]
      (s.values.getD hourInd []) (by decide) e2
    have hm : s.hours = (fieldVals hourOpts [['*']] (s.values.getD hourInd [])).1 := by
      rw [← hs]; rfl
    have hf : s.allowAnyHour =
        (fieldVals hourOpts [['*']] (s.values.getD hourInd [])).2.1 := by
      rw [← hs]; rfl
    rw [hm, hf, Schedule.Hour]
    exact hc
  · have hc := fieldVals_empty_cases dayOpts [['*'], ['?']]
      (s.values.getD dayInd []) (by decide) e3
    have hm : s.days = (fieldVals dayOpts [['*'], ['?']] (s.values.getD dayInd [])).1 := by
      rw [← hs]; rfl
    have hf : s.allowAnyDay =
        (fieldVals dayOpts [['*'], ['?']] (s.values.getD dayInd [])).2.1 := by
      rw [← hs]; rfl
    rw [hm, hf, Schedule.Day]
    exact hc
  · have hc := fieldVals_empty_cases monthOpts [['*'], ['?']]
      (s.values.getD monthInd []) (by decide) e4
    have hm : s.months = (fieldVals monthOpts [['*'], ['?']] (s.values.getD monthInd [])).1 := by
      rw [← hs]; rfl
    have hf : s.allowAnyMonth =
        (fieldVals monthOpts [['*'], ['?']] (s.values.getD monthInd [])).2.1 := by
      rw [← hs]; rfl
    rw [hm, hf, Schedule.Month]
    exact hc
  · have hc := fieldVals_empty_cases weekdayOpts [['*'], ['?']]
      (s.values.getD weekdayInd []) (by decide) e5
    have hm : s.weekdays =
        (fieldVals weekdayOpts [['*'], ['?']] (s.values.getD weekdayInd [])).1 := by
      rw [← hs]; rfl
    have hf : s.allowAnyWeekday =
        (fieldVals weekdayOpts [['*'], ['?']] (s.values.getD weekdayInd [])).2.1 := by
      rw [← hs]; rfl
    rw [hm, hf, Schedule.Weekday]
    exact hc

/-- The schedule built from `"0 0 L * *"`. -/
def schedC6w : Schedule := (validate (splitChar ' ' (chars "0 0 L * *"))).1

/-- C6 witness: the amended invariant at a concrete schedule whose day
field is the `L` marker. -/
theorem c6_witness :
    (schedC6w.allowAnyMinute = true ∨ schedC6w.minutes ≠ [] ∨
      containsLl schedC6w.Minute = true) ∧
    (schedC6w.allowAnyHour = true ∨ schedC6w.hours ≠ [] ∨
      containsLl schedC6w.Hour = true) ∧
    (schedC6w.allowAnyDay = true ∨ schedC6w.days ≠ [] ∨
      containsLl schedC6w.Day = true) ∧
    (schedC6w.allowAnyMonth = true ∨ schedC6w.months ≠ [] ∨
      containsLl schedC6w.Month = true) ∧
    (schedC6w.allowAnyWeekday = true ∨ schedC6w.weekdays ≠ [] ∨
      containsLl schedC6w.Weekday = true) :=
  c6_nonempty_unless_any_or_L (chars "0 0 L * *") schedC6w rfl

/-- The schedule built from the resolved `@monthly` expression. -/
def schedMonthlyResolved : Schedule := (validate (splitChar ' ' (chars "0 0 1 * *"))).1

/-- C4: no constructed schedule's canonical string can equal the unresolved
macro name `"@monthly"` (the five fields are joined by four spaces), so the
monthly fast-path case of `nextNoTruncate` never fires, and in particular
the schedule constructed from `@monthly` is searched entirely by the
minute-stepping loop. -/
theorem c4_monthly_fast_path_dead :
    (∀ (cron : List Char) (s : Schedule) (errs : List String),
      New cron = some (s, errs) → s.string ≠ chars "@monthly") ∧
    New (chars "@monthly") = some (schedMonthlyResolved, []) ∧
    (∀ (fuel : Nat) (t : DateTime),
      nextNoTruncate schedMonthlyResolved fuel t = nextFuel schedMonthlyResolved fuel t) := by
  refine ⟨fun cron s errs h => string_ne_monthly h, rfl, ?_⟩
  intro fuel t
  rw [nextNoTruncate, if_neg (by decide), if_neg (by decide)]

/-- C4 witness: the theorem instantiated at the schedule resolved from the
`@monthly` macro itself. -/
theorem c4_witness : schedMonthlyResolved.string ≠ chars "@monthly" :=
  c4_monthly_fast_path_dead.1 (chars "@monthly") schedMonthlyResolved [] rfl

/-- A validated field with no error either took the accept-any arm (flag
set, empty set) or parsed successfully into the stored set. -/
theorem fieldVals_none_validated (f : CronField) (anyToks : List (List Char))
    (v : List Char) (herr : (fieldVals f anyToks v).2.2 = none) :
    if v ∈ anyToks then
      (fieldVals f anyToks v).2.1 = true ∧ (fieldVals f anyToks v).1 = []
    else
      (fieldVals f anyToks v).2.1 = false ∧ parse f v = .ok (fieldVals f anyToks v).1 := by
  unfold fieldVals at herr ⊢
  by_cases hv : v ∈ anyToks
  · rw [if_pos hv, if_pos hv]
    exact ⟨rfl, rfl⟩
  · rw [if_neg hv] at herr ⊢
    rw [if_neg hv]
    cases hp : parse f v with
    | error e => rw [hp] at herr; simp at herr
    | ok vs =>
      dsimp only
      exact ⟨rfl, rfl⟩

/-- A five-element option list reduces to something only if some entry is
`some`. -/
theorem reduceOption5_ne_nil {a b c d e : Option String}
    (h : ([a, b, c, d, e] : List (Option String)).reduceOption ≠ []) :
    a ≠ none ∨ b ≠ none ∨ c ≠ none ∨ d ≠ none ∨ e ≠ none := by
  cases a <;> cases b <;> cases c <;> cases d <;> cases e <;>
    simp_all [List.reduceOption_cons_of_some, List.reduceOption_cons_of_none,
      List.reduceOption_nil]

/-- A validated field that reported an error stored an empty set with the
accept-any flag clear, and its parse failed. -/
theorem fieldVals_some_err (f : CronField) (anyToks : List (List Char))
    (v : List Char) (h : (fieldVals f anyToks v).2.2 ≠ none) :
    (fieldVals f anyToks v).1 = [] ∧ (fieldVals f anyToks v).2.1 = false ∧
    ∃ e, parse f v = .error e := by
  unfold fieldVals at h ⊢
  by_cases hv : v ∈ anyToks
  · rw [if_pos hv] at h; simp at h
  · rw [if_neg hv] at h ⊢
    cases hp : parse f v with
    | error e => exact ⟨rfl, rfl, e, rfl⟩
    | ok vs => rw [hp] at h; simp at h

/-- C5: construction returns exactly the aggregated per-field error list —
one entry for every failing field, in field order, not just the first.
When that list is empty the schedule is fully validated: every field either
took its accept-any arm or stores precisely its successful parse. When it
is non-empty, the partially populated value that Go returns alongside the
error matches no time at all (no usable partial schedule). -/
theorem c5_error_aggregation (cron : List Char) (s : Schedule) (errs : List String)
    (h : New cron = some (s, errs)) :
    errs = specAggregatedErrors s.values ∧ (errs = [] → FullyValidated s) ∧
    (errs ≠ [] → ∀ t : DateTime, s.Matches t = false) := by
  obtain ⟨_, _, hval, _⟩ := New_inv h
  have hs : (validate s.values).1 = s := congrArg Prod.fst hval
  have herr : (validate s.values).2 = errs := congrArg Prod.snd hval
  refine ⟨?_, ?_, ?_⟩
  · rw [← herr]; rfl
  · intro hnil
    rw [hnil] at herr
    have herr5 :
        ([(fieldVals minuteOpts [['*']] (s.values.getD minuteInd [])).2.2,
          (fieldVals hourOpts [['*']] (s.values.getD hourInd [])).2.2,
          (fieldVals dayOpts [['*'], ['?']] (s.values.getD dayInd [])).2.2,
          (fieldVals monthOpts [['*'], ['?']] (s.values.getD monthInd [])).2.2,
          (fieldVals weekdayOpts [['*'], ['?']]
            (s.values.getD weekdayInd [])).2.2] :
          List (Option String)).reduceOption = [] := herr
    obtain ⟨e1, e2, e3, e4, e5⟩ := reduceOption5_nil herr5
    have q1 := fieldVals_none_validated minuteOpts [['*']] (s.values.getD minuteInd []) e1
    have q2 := fieldVals_none_validated hourOpts [['*']] (s.values.getD hourInd []) e2
    have q3 := fieldVals_none_validated dayOpts [['*'], ['?']] (s.values.getD dayInd []) e3
    have q4 := fieldVals_none_validated monthOpts [['*'], ['?']] (s.values.getD monthInd []) e4
    have q5 := fieldVals_none_validated weekdayOpts [['*'], ['?']]
      (s.values.getD weekdayInd []) e5
    have hm1 : s.minutes = (fieldVals minuteOpts [['*']] (s.values.getD minuteInd [])).1 := by
      rw [← hs]; rfl
    have hf1 : s.allowAnyMinute =
        (fieldVals minuteOpts [['*']] (s.values.getD minuteInd [])).2.1 := by
      rw [← hs]; rfl
    have hm2 : s.hours = (fieldVals hourOpts [['*']] (s.values.getD hourInd [])).1 := by
      rw [← hs]; rfl
    have hf2 : s.allowAnyHour =
        (fieldVals hourOpts [['*']] (s.values.getD hourInd [])).2.1 := by
      rw [← hs]; rfl
    have hm3 : s.days = (fieldVals dayOpts [['*'], ['?']] (s.values.getD dayInd [])).1 := by
      rw [← hs]; rfl
    have hf3 : s.allowAnyDay =
        (fieldVals dayOpts [['*'], ['?']] (s.values.getD dayInd [])).2.1 := by
      rw [← hs]; rfl
    have hm4 : s.months = (fieldVals monthOpts [['*'], ['?']] (s.values.getD monthInd [])).1 := by
      rw [← hs]; rfl
    have hf4 : s.allowAnyMonth =
        (fieldVals monthOpts [['*'], ['?']] (s.values.getD monthInd [])).2.1 := by
      rw [← hs]; rfl
    have hm5 : s.weekdays =
        (fieldVals weekdayOpts [['*'], ['?']] (s.values.getD weekdayInd [])).1 := by
      rw [← hs]; rfl
    have hf5 : s.allowAnyWeekday =
        (fieldVals weekdayOpts [['*'], ['?']] (s.values.getD weekdayInd [])).2.1 := by
      rw [← hs]; rfl
    refine ⟨?_, ?_, ?_, ?_, ?_⟩
    · rw [Schedule.Minute] at *
      split_ifs with hv
      · rw [if_pos hv] at q1; rw [hm1, hf1]; exact q1
      · rw [if_neg hv] at q1; rw [hm1, hf1]; exact q1
    · rw [Schedule.Hour] at *
      split_ifs with hv
      · rw [if_pos hv] at q2; rw [hm2, hf2]; exact q2
      · rw [if_neg hv] at q2; rw [hm2, hf2]; exact q2
    · rw [Schedule.Day] at *
      split_ifs with hv
      · rw [if_pos hv] at q3; rw [hm3, hf3]; exact q3
      · rw [if_neg hv] at q3; rw [hm3, hf3]; exact q3
    · rw [Schedule.Month] at *
      split_ifs with hv
      · rw [if_pos hv] at q4; rw [hm4, hf4]; exact q4
      · rw [if_neg hv] at q4; rw [hm4, hf4]; exact q4
    · rw [Schedule.Weekday] at *
      split_ifs with hv
      · rw [if_pos hv] at q5; rw [hm5, hf5]; exact q5
      · rw [if_neg hv] at q5; rw [hm5, hf5]; exact q5

  · intro hne t
    have herr5ne :
        ([(fieldVals minuteOpts [['*']] (s.values.getD minuteInd [])).2.2,
          (fieldVals hourOpts [['*']] (s.values.getD hourInd [])).2.2,
          (fieldVals dayOpts [['*'], ['?']] (s.values.getD dayInd [])).2.2,
          (fieldVals monthOpts [['*'], ['?']] (s.values.getD monthInd [])).2.2,
          (fieldVals weekdayOpts [['*'], ['?']]
            (s.values.getD weekdayInd [])).2.2] :
          List (Option String)).reduceOption ≠ [] := by
      intro hnil
      exact hne (herr ▸ hnil ▸ rfl)
    have hm1 : s.minutes = (fieldVals minuteOpts [['*']] (s.values.getD minuteInd [])).1 := by
      rw [← hs]; rfl
    have hf1 : s.allowAnyMinute =
        (fieldVals minuteOpts [['*']] (s.values.getD minuteInd [])).2.1 := by
      rw [← hs]; rfl
    have hm2 : s.hours = (fieldVals hourOpts [['*']] (s.values.getD hourInd [])).1 := by
      rw [← hs]; rfl
    have hf2 : s.allowAnyHour =
        (fieldVals hourOpts [['*']] (s.values.getD hourInd [])).2.1 := by
      rw [← hs]; rfl
    have hm3 : s.days = (fieldVals dayOpts [['*'], ['?']] (s.values.getD dayInd [])).1 := by
      rw [← hs]; rfl
    have hf3 : s.allowAnyDay =
        (fieldVals dayOpts [['*'], ['?']] (s.values.getD dayInd [])).2.1 := by
      rw [← hs]; rfl
    have hm4 : s.months = (fieldVals monthOpts [['*'], ['?']] (s.values.getD monthInd [])).1 := by
      rw [← hs]; rfl
    have hf4 : s.allowAnyMonth =
        (fieldVals monthOpts [['*'], ['?']] (s.values.getD monthInd [])).2.1 := by
      rw [← hs]; rfl
    have hm5 : s.weekdays =
        (fieldVals weekdayOpts [['*'], ['?']] (s.values.getD weekdayInd [])).1 := by
      rw [← hs]; rfl
    have hf5 : s.allowAnyWeekday =
        (fieldVals weekdayOpts [['*'], ['?']] (s.values.getD weekdayInd [])).2.1 := by
      rw [← hs]; rfl
    rcases reduceOption5_ne_nil herr5ne with hc | hc | hc | hc | hc
    · obtain ⟨hset, hflag, _, _⟩ := fieldVals_some_err _ _ _ hc
      have hmm : s.minutes = [] := by rw [hm1, hset]
      have hff : s.allowAnyMinute = false := by rw [hf1, hflag]
      simp [Schedule.Matches, Schedule.isMinute, hmm, hff]
    · obtain ⟨hset, hflag, _, _⟩ := fieldVals_some_err _ _ _ hc
      have hmm : s.hours = [] := by rw [hm2, hset]
      have hff : s.allowAnyHour = false := by rw [hf2, hflag]
      simp [Schedule.Matches, Schedule.isHour, hmm, hff]
    · obtain ⟨hset, hflag, e, hpe⟩ := fieldVals_some_err _ _ _ hc
      have hmm : s.days = [] := by rw [hm3, hset]
      have hff : s.allowAnyDay = false := by rw [hf3, hflag]
      have hDne : s.Day ≠ ['L'] := by
        intro hD
        rw [Schedule.Day] at hD
        rw [hD] at hpe
        have : parse dayOpts ['L'] = Except.ok [] := rfl
        rw [this] at hpe
        simp at hpe
      simp [Schedule.Matches, Schedule.isDay, hmm, hff, hDne]
    · obtain ⟨hset, hflag, _, _⟩ := fieldVals_some_err _ _ _ hc
      have hmm : s.months = [] := by rw [hm4, hset]
      have hff : s.allowAnyMonth = false := by rw [hf4, hflag]
      simp [Schedule.Matches, Schedule.isMonth, hmm, hff]
    · obtain ⟨hset, hflag, _, _⟩ := fieldVals_some_err _ _ _ hc
      have hmm : s.weekdays = [] := by rw [hm5, hset]
      have hff : s.allowAnyWeekday = false := by rw [hf5, hflag]
      simp [Schedule.Matches, Schedule.isWeekday, hmm, hff]

/-- The raw fields of `"60 61 32 13 8"` (all five out of bounds). -/
def c5vals : List (List Char) := splitChar ' ' (chars "60 61 32 13 8")

/-- C5 witness: a five-way-invalid expression aggregates one error per
field — all five of them. -/
theorem c5_witness :
    (validate c5vals).2 = specAggregatedErrors (validate c5vals).1.values ∧
    (validate c5vals).2.length = 5 := by
  constructor
  · exact (c5_error_aggregation (chars "60 61 32 13 8") (validate c5vals).1
      (validate c5vals).2 rfl).1
  · decide

/-- C2: for each of the five cron fields, every accepted field text parses
to a strictly ascending (hence duplicate-free) sequence of integers within
the field's `[Min, Max]` bounds. -/
theorem c2_parse_sorted_bounded (f : CronField)
    (hf : f ∈ [minuteOpts, hourOpts, dayOpts, monthOpts, weekdayOpts])
    (s : List Char) (vs : List Int) (h : parse f s = .ok vs) :
    vs.Sorted (· < ·) ∧ ∀ v ∈ vs, f.Min ≤ v ∧ v ≤ f.Max := by
  constructor
  · rw [parse, parseF, except_map_ok] at h
    obtain ⟨w, _, rfl⟩ := h
    exact sortCompact_sorted w
  · have hA : ∀ x ∈ f.Allowed, f.Min ≤ x ∧ x ≤ f.Max := by
      fin_cases hf <;> decide
    have hC : ∀ p ∈ f.Conversions, f.Min ≤ p.2 ∧ p.2 ≤ f.Max := by
      fin_cases hf <;> decide
    exact parseF_bounds f hA hC _ s vs h

/-- C2 witness: the non-standard single-base step text on the minute
field. -/
theorem c2_witness :
    List.Sorted (· < ·) ([5, 15, 25, 35, 45, 55] : List Int) ∧
    ∀ v ∈ ([5, 15, 25, 35, 45, 55] : List Int),
      minuteOpts.Min ≤ v ∧ v ≤ minuteOpts.Max :=
  c2_parse_sorted_bounded minuteOpts (by simp) (chars "5/10")
    [5, 15, 25, 35, 45, 55] rfl

/-- The schedule built from `"0 0 30 2 *"` (February 30th — a day that
never exists). -/
def sched30Feb : Schedule := (validate (splitChar ' ' (chars "0 0 30 2 *"))).1

/-- No well-formed time matches `"0 0 30 2 *"`: February has at most 29
days. -/
theorem sched30Feb_never : ∀ u : DateTime, u.Valid → sched30Feb.Matches u = false := by
  intro u hu
  obtain ⟨h1, h2, h3, h4, h5, h6⟩ := hu
  rw [show sched30Feb = ⟨[chars "0", chars "0", chars "30", chars "2", chars "*"],
      [0], [0], false, [0], false, [30], false, [2], false, [], true⟩ from rfl]
  simp only [Schedule.Matches, Schedule.isWeekday, Schedule.isMonth, Schedule.isDay,
    Schedule.isHour, Schedule.isMinute, Schedule.Day, minuteInd, hourInd, dayInd,
    monthInd, weekdayInd, if_true, if_false, List.contains_cons, List.contains_nil]
  by_cases hm : u.month = 2
  · have hfeb := daysInMonth_feb_le u.year
    rw [hm] at h4
    have hd : (u.day : Int) ≠ 30 := by omega
    have hL : (chars "30" : List Char) ≠ ['L'] := by decide
    simp [hd, hL]
  · have hmi : (u.month : Int) ≠ 2 := by omega
    simp [hmi]

/-- C1 counterexample: `New` accepts `"0 0 30 2 *"` without error, yet
`Next` never returns on it — the minute-stepping loop runs forever because
no minute ever matches — so the claim's "Next(t) returns a time ..." fails
for this constructed schedule. -/
theorem c1_counterexample :
    New (chars "0 0 30 2 *") = some (sched30Feb, []) ∧
    NextDiverges sched30Feb ⟨2024, 1, 1, 0, 0⟩ := by
  refine ⟨rfl, ?_⟩
  intro fuel
  rw [Next, nextNoTruncate, if_neg (by decide), if_neg (by decide)]
  exact nextFuel_never sched30Feb sched30Feb_never fuel _ (by decide)

/-- C1 (amended): for every schedule constructed by `New` without error,
whenever `Next` returns (including through the yearly fast path) the result
is strictly after the minute-truncated start and matches the schedule, and
whenever `Prev` returns from a well-formed time the result is strictly
before the start and matches the schedule. -/
theorem c1_next_prev_sound (cron : List Char) (s : Schedule)
    (h : New cron = some (s, [])) :
    (∀ (fuel : Nat) (t r : DateTime), Next s fuel t = some r →
      t.lt r ∧ s.Matches r = true) ∧
    (∀ (fuel : Nat) (t r : DateTime), t.Valid → Prev s fuel t = some r →
      r.lt t ∧ s.Matches r = true) := by
  obtain ⟨hvals, hlen, hval, hstr⟩ := New_inv h
  constructor
  · intro fuel t r hn
    rw [Next, nextNoTruncate] at hn
    by_cases hy : s.string = chars "0 0 1 1 *"
    · rw [if_pos hy] at hn
      obtain rfl : (⟨t.year + 1, 1, 1, 0, 0⟩ : DateTime) = r := by simpa using hn
      refine ⟨Or.inl (show t.year < t.year + 1 by omega), ?_⟩
      -- the resolved yearly string pins all five raw fields, hence the
      -- parsed sets; Jan 1 00:00 of any year then matches
      have hc2 : cronShortcut (trimSpace cron) = chars "0 0 1 1 *" := by
        rw [← hstr]; exact hy
      have hs1 : s = (validate s.values).1 := (congrArg Prod.fst hval).symm
      have hvconc : s.values = splitChar ' ' (chars "0 0 1 1 *") := by
        rw [hvals, hc2]
      rw [hs1, hvconc]
      rfl
    · rw [if_neg hy] at hn
      rw [if_neg (string_ne_monthly h)] at hn
      exact nextFuel_sound s fuel t r hn
  · intro fuel t r hv hp
    rw [Prev] at hp
    exact prevFuel_sound s fuel t r hv hp

/-- The schedule built from `"* * * * *"`. -/
def schedStar : Schedule := (validate (splitChar ' ' (chars "* * * * *"))).1

/-- C1 witness: the amended soundness applied to the every-minute schedule,
forwards across a minute and backwards across a year boundary. -/
theorem c1_witness :
    (DateTime.lt ⟨2024, 1, 1, 0, 0⟩ ⟨2024, 1, 1, 0, 1⟩ ∧
      schedStar.Matches ⟨2024, 1, 1, 0, 1⟩ = true) ∧
    (DateTime.lt ⟨2023, 12, 31, 23, 59⟩ ⟨2024, 1, 1, 0, 0⟩ ∧
      schedStar.Matches ⟨2023, 12, 31, 23, 59⟩ = true) := by
  obtain ⟨hn, hp⟩ := c1_next_prev_sound (chars "* * * * *") schedStar rfl
  exact ⟨hn 5 ⟨2024, 1, 1, 0, 0⟩ ⟨2024, 1, 1, 0, 1⟩ rfl,
    hp 5 ⟨2024, 1, 1, 0, 0⟩ ⟨2023, 12, 31, 23, 59⟩ (by decide) rfl⟩

/-- The schedule built from `"30 12 L * *"`. -/
def sched30L : Schedule := (validate (splitChar ' ' (chars "30 12 L * *"))).1

/-- The `"30 12 L * *"` matching predicate in closed form. -/
theorem sched30L_matches_iff (t : DateTime) :
    sched30L.Matches t = true ↔
      (t.minute = 30 ∧ t.hour = 12 ∧ t.day = daysInMonth t.year t.month) := by
  rw [show sched30L = ⟨[chars "30", chars "12", chars "L", chars "*", chars "*"],
      [30], [0], false, [12], false, [], false, [], true, [], true⟩ from rfl]
  have hL : (chars "L" : List Char) = ['L'] := by decide
  simp only [Schedule.Matches, Schedule.isWeekday, Schedule.isMonth, Schedule.isDay,
    Schedule.isHour, Schedule.isMinute, Schedule.Day, minuteInd, hourInd, dayInd,
    monthInd, weekdayInd, if_true, if_false, List.contains_cons, List.contains_nil,
    hL, lastDayOfMonth]
  simp [Bool.and_eq_true, beq_iff_eq]
  omega

set_option maxRecDepth 6000 in
set_option maxHeartbeats 4000000 in
/-- C7 helper: the minute-stepping loop from 2024-02-21T11:35, advanced in
500-minute chunks past the non-matching minutes, lands on the leap-year
last-of-February occurrence. -/
theorem sched30L_next_eval :
    nextFuel sched30L 20000 ⟨2024, 2, 21, 11, 35⟩ = some ⟨2024, 2, 29, 12, 30⟩ := by
  have s0 : nextFuel sched30L 500 ⟨2024, 2, 21, 11, 35⟩ = none := by decide
  have a0 : addMinutes 500 ⟨2024, 2, 21, 11, 35⟩ = ⟨2024, 2, 21, 19, 55⟩ := by decide
  have c0 : nextFuel sched30L 20000 ⟨2024, 2, 21, 11, 35⟩ = nextFuel sched30L 19500 ⟨2024, 2, 21, 19, 55⟩ := by
    have h := nextFuel_chunk sched30L 500 19500 ⟨2024, 2, 21, 11, 35⟩ s0
    rw [a0] at h
    have e : (500 : Nat) + 19500 = 20000 := by norm_num
    rw [e] at h
    exact h
  have s1 : nextFuel sched30L 500 ⟨2024, 2, 21, 19, 55⟩ = none := by decide
  have a1 : addMinutes 500 ⟨2024, 2, 21, 19, 55⟩ = ⟨2024, 2, 22, 4, 15⟩ := by decide
  have c1 : nextFuel sched30L 19500 ⟨2024, 2, 21, 19, 55⟩ = nextFuel sched30L 19000 ⟨2024, 2, 22, 4, 15⟩ := by
    have h := nextFuel_chunk sched30L 500 19000 ⟨2024, 2, 21, 19, 55⟩ s1
    rw [a1] at h
    have e : (500 : Nat) + 19000 = 19500 := by norm_num
    rw [e] at h
    exact h
  have s2 : nextFuel sched30L 500 ⟨2024, 2, 22, 4, 15⟩ = none := by decide
  have a2 : addMinutes 500 ⟨2024, 2, 22, 4, 15⟩ = ⟨2024, 2, 22, 12, 35⟩ := by decide
  have c2 : nextFuel sched30L 19000 ⟨2024, 2, 22, 4, 15⟩ = nextFuel sched30L 18500 ⟨2024, 2, 22, 12, 35⟩ := by
    have h := nextFuel_chunk sched30L 500 18500 ⟨2024, 2, 22, 4, 15⟩ s2
    rw [a2] at h
    have e : (500 : Nat) + 18500 = 19000 := by norm_num
    rw [e] at h
    exact h
  have s3 : nextFuel sched30L 500 ⟨2024, 2, 22, 12, 35⟩ = none := by decide
  have a3 : addMinutes 500 ⟨2024, 2, 22, 12, 35⟩ = ⟨2024, 2, 22, 20, 55⟩ := by decide
  have c3 : nextFuel sched30L 18500 ⟨2024, 2, 22, 12, 35⟩ = nextFuel sched30L 18000 ⟨2024, 2, 22, 20, 55⟩ := by
    have h := nextFuel_chunk sched30L 500 18000 ⟨2024, 2, 22, 12, 35⟩ s3
    rw [a3] at h
    have e : (500 : Nat) + 18000 = 18500 := by norm_num
    rw [e] at h
    exact h
  have s4 : nextFuel sched30L 500 ⟨2024, 2, 22, 20, 55⟩ = none := by decide
  have a4 : addMinutes 500 ⟨2024, 2, 22, 20, 55⟩ = ⟨2024, 2, 23, 5, 15⟩ := by decide
  have c4 : nextFuel sched30L 18000 ⟨2024, 2, 22, 20, 55⟩ = nextFuel sched30L 17500 ⟨2024, 2, 23, 5, 15⟩ := by
    have h := nextFuel_chunk sched30L 500 17500 ⟨2024, 2, 22, 20, 55⟩ s4
    rw [a4] at h
    have e : (500 : Nat) + 17500 = 18000 := by norm_num
    rw [e] at h
    exact h
  have s5 : nextFuel sched30L 500 ⟨2024, 2, 23, 5, 15⟩ = none := by decide
  have a5 : addMinutes 500 ⟨2024, 2, 23, 5, 15⟩ = ⟨2024, 2, 23, 13, 35⟩ := by decide
  have c5 : nextFuel sched30L 17500 ⟨2024, 2, 23, 5, 15⟩ = nextFuel sched30L 17000 ⟨2024, 2, 23, 13, 35⟩ := by
    have h := nextFuel_chunk sched30L 500 17000 ⟨2024, 2, 23, 5, 15⟩ s5
    rw [a5] at h
    have e : (500 : Nat) + 17000 = 17500 := by norm_num
    rw [e] at h
    exact h
  have s6 : nextFuel sched30L 500 ⟨2024, 2, 23, 13, 35⟩ = none := by decide
  have a6 : addMinutes 500 ⟨2024, 2, 23, 13, 35⟩ = ⟨2024, 2, 23, 21, 55⟩ := by decide
  have c6 : nextFuel sched30L 17000 ⟨2024, 2, 23, 13, 35⟩ = nextFuel sched30L 16500 ⟨2024, 2, 23, 21, 55⟩ := by
    have h := nextFuel_chunk sched30L 500 16500 ⟨2024, 2, 23, 13, 35⟩ s6
    rw [a6] at h
    have e : (500 : Nat) + 16500 = 17000 := by norm_num
    rw [e] at h
    exact h
  have s7 : nextFuel sched30L 500 ⟨2024, 2, 23, 21, 55⟩ = none := by decide
  have a7 : addMinutes 500 ⟨2024, 2, 23, 21, 55⟩ = ⟨2024, 2, 24, 6, 15⟩ := by decide
  have c7 : nextFuel sched30L 16500 ⟨2024, 2, 23, 21, 55⟩ = nextFuel sched30L 16000 ⟨2024, 2, 24, 6, 15⟩ := by
    have h := nextFuel_chunk sched30L 500 16000 ⟨2024, 2, 23, 21, 55⟩ s7
    rw [a7] at h
    have e : (500 : Nat) + 16000 = 16500 := by norm_num
    rw [e] at h
    exact h
  have s8 : nextFuel sched30L 500 ⟨2024, 2, 24, 6, 15⟩ = none := by decide
  have a8 : addMinutes 500 ⟨2024, 2, 24, 6, 15⟩ = ⟨2024, 2, 24, 14, 35⟩ := by decide
  have c8 : nextFuel sched30L 16000 ⟨2024, 2, 24, 6, 15⟩ = nextFuel sched30L 15500 ⟨2024, 2, 24, 14, 35⟩ := by
    have h := nextFuel_chunk sched30L 500 15500 ⟨2024, 2, 24, 6, 15⟩ s8
    rw [a8] at h
    have e : (500 : Nat) + 15500 = 16000 := by norm_num
    rw [e] at h
    exact h
  have s9 : nextFuel sched30L 500 ⟨2024, 2, 24, 14, 35⟩ = none := by decide
  have a9 : addMinutes 500 ⟨2024, 2, 24, 14, 35⟩ = ⟨2024, 2, 24, 22, 55⟩ := by decide
  have c9 : nextFuel sched30L 15500 ⟨2024, 2, 24, 14, 35⟩ = nextFuel sched30L 15000 ⟨2024, 2, 24, 22, 55⟩ := by
    have h := nextFuel_chunk sched30L 500 15000 ⟨2024, 2, 24, 14, 35⟩ s9
    rw [a9] at h
    have e : (500 : Nat) + 15000 = 15500 := by norm_num
    rw [e] at h
    exact h
  have s10 : nextFuel sched30L 500 ⟨2024, 2, 24, 22, 55⟩ = none := by decide
  have a10 : addMinutes 500 ⟨2024, 2, 24, 22, 55⟩ = ⟨2024, 2, 25, 7, 15⟩ := by decide
  have c10 : nextFuel sched30L 15000 ⟨2024, 2, 24, 22, 55⟩ = nextFuel sched30L 14500 ⟨2024, 2, 25, 7, 15⟩ := by
    have h := nextFuel_chunk sched30L 500 14500 ⟨2024, 2, 24, 22, 55⟩ s10
    rw [a10] at h
    have e : (500 : Nat) + 14500 = 15000 := by norm_num
    rw [e] at h
    exact h
  have s11 : nextFuel sched30L 500 ⟨2024, 2, 25, 7, 15⟩ = none := by decide
  have a11 : addMinutes 500 ⟨2024, 2, 25, 7, 15⟩ = ⟨2024, 2, 25, 15, 35⟩ := by decide
  have c11 : nextFuel sched30L 14500 ⟨2024, 2, 25, 7, 15⟩ = nextFuel sched30L 14000 ⟨2024, 2, 25, 15, 35⟩ := by
    have h := nextFuel_chunk sched30L 500 14000 ⟨2024, 2, 25, 7, 15⟩ s11
    rw [a11] at h
    have e : (500 : Nat) + 14000 = 14500 := by norm_num
    rw [e] at h
    exact h
  have s12 : nextFuel sched30L 500 ⟨2024, 2, 25, 15, 35⟩ = none := by decide
  have a12 : addMinutes 500 ⟨2024, 2, 25, 15, 35⟩ = ⟨2024, 2, 25, 23, 55⟩ := by decide
  have c12 : nextFuel sched30L 14000 ⟨2024, 2, 25, 15, 35⟩ = nextFuel sched30L 13500 ⟨2024, 2, 25, 23, 55⟩ := by
    have h := nextFuel_chunk sched30L 500 13500 ⟨2024, 2, 25, 15, 35⟩ s12
    rw [a12] at h
    have e : (500 : Nat) + 13500 = 14000 := by norm_num
    rw [e] at h
    exact h
  have s13 : nextFuel sched30L 500 ⟨2024, 2, 25, 23, 55⟩ = none := by decide
  have a13 : addMinutes 500 ⟨2024, 2, 25, 23, 55⟩ = ⟨2024, 2, 26, 8, 15⟩ := by decide
  have c13 : nextFuel sched30L 13500 ⟨2024, 2, 25, 23, 55⟩ = nextFuel sched30L 13000 ⟨2024, 2, 26, 8, 15⟩ := by
    have h := nextFuel_chunk sched30L 500 13000 ⟨2024, 2, 25, 23, 55⟩ s13
    rw [a13] at h
    have e : (500 : Nat) + 13000 = 13500 := by norm_num
    rw [e] at h
    exact h
  have s14 : nextFuel sched30L 500 ⟨2024, 2, 26, 8, 15⟩ = none := by decide
  have a14 : addMinutes 500 ⟨2024, 2, 26, 8, 15⟩ = ⟨2024, 2, 26, 16, 35⟩ := by decide
  have c14 : nextFuel sched30L 13000 ⟨2024, 2, 26, 8, 15⟩ = nextFuel sched30L 12500 ⟨2024, 2, 26, 16, 35⟩ := by
    have h := nextFuel_chunk sched30L 500 12500 ⟨2024, 2, 26, 8, 15⟩ s14
    rw [a14] at h
    have e : (500 : Nat) + 12500 = 13000 := by norm_num
    rw [e] at h
    exact h
  have s15 : nextFuel sched30L 500 ⟨2024, 2, 26, 16, 35⟩ = none := by decide
  have a15 : addMinutes 500 ⟨2024, 2, 26, 16, 35⟩ = ⟨2024, 2, 27, 0, 55⟩ := by decide
  have c15 : nextFuel sched30L 12500 ⟨2024, 2, 26, 16, 35⟩ = nextFuel sched30L 12000 ⟨2024, 2, 27, 0, 55⟩ := by
    have h := nextFuel_chunk sched30L 500 12000 ⟨2024, 2, 26, 16, 35⟩ s15
    rw [a15] at h
    have e : (500 : Nat) + 12000 = 12500 := by norm_num
    rw [e] at h
    exact h
  have s16 : nextFuel sched30L 500 ⟨2024, 2, 27, 0, 55⟩ = none := by decide
  have a16 : addMinutes 500 ⟨2024, 2, 27, 0, 55⟩ = ⟨2024, 2, 27, 9, 15⟩ := by decide
  have c16 : nextFuel sched30L 12000 ⟨2024, 2, 27, 0, 55⟩ = nextFuel sched30L 11500 ⟨2024, 2, 27, 9, 15⟩ := by
    have h := nextFuel_chunk sched30L 500 11500 ⟨2024, 2, 27, 0, 55⟩ s16
    rw [a16] at h
    have e : (500 : Nat) + 11500 = 12000 := by norm_num
    rw [e] at h
    exact h
  have s17 : nextFuel sched30L 500 ⟨2024, 2, 27, 9, 15⟩ = none := by decide
  have a17 : addMinutes 500 ⟨2024, 2, 27, 9, 15⟩ = ⟨2024, 2, 27, 17, 35⟩ := by decide
  have c17 : nextFuel sched30L 11500 ⟨2024, 2, 27, 9, 15⟩ = nextFuel sched30L 11000 ⟨2024, 2, 27, 17, 35⟩ := by
    have h := nextFuel_chunk sched30L 500 11000 ⟨2024, 2, 27, 9, 15⟩ s17
    rw [a17] at h
    have e : (500 : Nat) + 11000 = 11500 := by norm_num
    rw [e] at h
    exact h
  have s18 : nextFuel sched30L 500 ⟨2024, 2, 27, 17, 35⟩ = none := by decide
  have a18 : addMinutes 500 ⟨2024, 2, 27, 17, 35⟩ = ⟨2024, 2, 28, 1, 55⟩ := by decide
  have c18 : nextFuel sched30L 11000 ⟨2024, 2, 27, 17, 35⟩ = nextFuel sched30L 10500 ⟨2024, 2, 28, 1, 55⟩ := by
    have h := nextFuel_chunk sched30L 500 10500 ⟨2024, 2, 27, 17, 35⟩ s18
    rw [a18] at h
    have e : (500 : Nat) + 10500 = 11000 := by norm_num
    rw [e] at h
    exact h
  have s19 : nextFuel sched30L 500 ⟨2024, 2, 28, 1, 55⟩ = none := by decide
  have a19 : addMinutes 500 ⟨2024, 2, 28, 1, 55⟩ = ⟨2024, 2, 28, 10, 15⟩ := by decide
  have c19 : nextFuel sched30L 10500 ⟨2024, 2, 28, 1, 55⟩ = nextFuel sched30L 10000 ⟨2024, 2, 28, 10, 15⟩ := by
    have h := nextFuel_chunk sched30L 500 10000 ⟨2024, 2, 28, 1, 55⟩ s19
    rw [a19] at h
    have e : (500 : Nat) + 10000 = 10500 := by norm_num
    rw [e] at h
    exact h
  have s20 : nextFuel sched30L 500 ⟨2024, 2, 28, 10, 15⟩ = none := by decide
  have a20 : addMinutes 500 ⟨2024, 2, 28, 10, 15⟩ = ⟨2024, 2, 28, 18, 35⟩ := by decide
  have c20 : nextFuel sched30L 10000 ⟨2024, 2, 28, 10, 15⟩ = nextFuel sched30L 9500 ⟨2024, 2, 28, 18, 35⟩ := by
    have h := nextFuel_chunk sched30L 500 9500 ⟨2024, 2, 28, 10, 15⟩ s20
    rw [a20] at h
    have e : (500 : Nat) + 9500 = 10000 := by norm_num
    rw [e] at h
    exact h
  have s21 : nextFuel sched30L 500 ⟨2024, 2, 28, 18, 35⟩ = none := by decide
  have a21 : addMinutes 500 ⟨2024, 2, 28, 18, 35⟩ = ⟨2024, 2, 29, 2, 55⟩ := by decide
  have c21 : nextFuel sched30L 9500 ⟨2024, 2, 28, 18, 35⟩ = nextFuel sched30L 9000 ⟨2024, 2, 29, 2, 55⟩ := by
    have h := nextFuel_chunk sched30L 500 9000 ⟨2024, 2, 28, 18, 35⟩ s21
    rw [a21] at h
    have e : (500 : Nat) + 9000 = 9500 := by norm_num
    rw [e] at h
    exact h
  have s22 : nextFuel sched30L 500 ⟨2024, 2, 29, 2, 55⟩ = none := by decide
  have a22 : addMinutes 500 ⟨2024, 2, 29, 2, 55⟩ = ⟨2024, 2, 29, 11, 15⟩ := by decide
  have c22 : nextFuel sched30L 9000 ⟨2024, 2, 29, 2, 55⟩ = nextFuel sched30L 8500 ⟨2024, 2, 29, 11, 15⟩ := by
    have h := nextFuel_chunk sched30L 500 8500 ⟨2024, 2, 29, 2, 55⟩ s22
    rw [a22] at h
    have e : (500 : Nat) + 8500 = 9000 := by norm_num
    rw [e] at h
    exact h
  rw [c0, c1, c2, c3, c4, c5, c6, c7, c8, c9, c10, c11, c12, c13, c14, c15, c16, c17, c18, c19, c20, c21, c22]
  decide

/-- C7: `"30 12 L * *"` matches exactly minute 30 of hour 12 on the last
day of the month, and `Next` from 2024-02-21T11:35 lands on the leap-year
2024-02-29T12:30. -/
theorem c7_last_day_matching :
    New (chars "30 12 L * *") = some (sched30L, []) ∧
    (∀ t : DateTime, sched30L.Matches t = true ↔
      (t.minute = 30 ∧ t.hour = 12 ∧ t.day = daysInMonth t.year t.month)) ∧
    Next sched30L 20000 ⟨2024, 2, 21, 11, 35⟩ = some ⟨2024, 2, 29, 12, 30⟩ := by
  refine ⟨rfl, sched30L_matches_iff, ?_⟩
  rw [Next, nextNoTruncate, if_neg (by decide), if_neg (by decide)]
  exact sched30L_next_eval


/-- The schedule built from `"5/10 4,5 * * *"`. -/
def sched510 : Schedule := (validate (splitChar ' ' (chars "5/10 4,5 * * *"))).1

set_option maxRecDepth 6000 in
set_option maxHeartbeats 1000000 in
/-- C8 helper: stepping from 2024-02-21T11:30 to the next occurrence at
2024-02-22T04:05 (the first minute-5 of hour 4 the next day). -/
theorem sched510_next_eval :
    nextFuel sched510 2000 ⟨2024, 2, 21, 11, 30⟩ = some ⟨2024, 2, 22, 4, 5⟩ := by
  have s0 : nextFuel sched510 500 ⟨2024, 2, 21, 11, 30⟩ = none := by decide
  have a0 : addMinutes 500 ⟨2024, 2, 21, 11, 30⟩ = ⟨2024, 2, 21, 19, 50⟩ := by decide
  have c0 : nextFuel sched510 2000 ⟨2024, 2, 21, 11, 30⟩ =
      nextFuel sched510 1500 ⟨2024, 2, 21, 19, 50⟩ := by
    have h := nextFuel_chunk sched510 500 1500 ⟨2024, 2, 21, 11, 30⟩ s0
    rw [a0] at h
    have e : (500 : Nat) + 1500 = 2000 := by norm_num
    rw [e] at h
    exact h
  rw [c0]
  decide

/-- C8: `"5/10 4,5 * * *"` parses the minute field to every 10th minute
from 5 through 59 and the hour field to `{4, 5}`; it matches 04:15, 04:25
and 04:35 but not 04:12, and `Next` from 2024-02-21T11:30 is
2024-02-22T04:05. -/
theorem c8_step_extension :
    New (chars "5/10 4,5 * * *") = some (sched510, []) ∧
    sched510.minutes = [5, 15, 25, 35, 45, 55] ∧
    sched510.hours = [4, 5] ∧
    sched510.Matches ⟨2024, 2, 22, 4, 15⟩ = true ∧
    sched510.Matches ⟨2024, 2, 22, 4, 25⟩ = true ∧
    sched510.Matches ⟨2024, 2, 22, 4, 35⟩ = true ∧
    sched510.Matches ⟨2024, 2, 22, 4, 12⟩ = false ∧
    Next sched510 2000 ⟨2024, 2, 21, 11, 30⟩ = some ⟨2024, 2, 22, 4, 5⟩ := by
  refine ⟨rfl, rfl, rfl, by decide, by decide, by decide, by decide, ?_⟩
  rw [Next, nextNoTruncate, if_neg (by decide), if_neg (by decide)]
  exact sched510_next_eval

/-- C7 witness: the matching characterization instantiated at the computed
next occurrence (2024-02-29 is the last day of February 2024). -/
theorem c7_witness : sched30L.Matches ⟨2024, 2, 29, 12, 30⟩ = true :=
  (c7_last_day_matching.2.1 ⟨2024, 2, 29, 12, 30⟩).mpr ⟨rfl, rfl, by decide⟩
